import Mathlib

/-!
# SNAP — `TenXSingleAligner.h` and `SummarizeReads.cpp`

A shallow embedding of the candidate records of the 10x paired-end aligner
(`src/SNAPLib/TenXSingleAligner.h`) and of the read summariser
(`src/apps/SummarizeReads/SummarizeReads.cpp`), followed by theorems about them.

Conventions of the embedding

* `GenomeLocation` / `GenomeDistance` (declared in a header that is not part of the
  sources at hand) are mathematical integers (`Int`).
* `unsigned` values are naturals below `2 ^ 32`; a store of a negative `int` into an
  `unsigned` goes through `toUnsigned`.
* a pointer into one of the aligner's pools is an `Option Nat`: `none` is `NULL`,
  `some i` is the address of pool entry `i`.
* `double` fields are `Float`; they are only stored, never computed with.
-/

namespace TenXSingleAligner

/-! ## Cluster-tag sentinels (`#define`s at lines 25–27) -/

/-- Source: `#define UNLINKED_ID -1`. -/
def UNLINKED_ID : Int := -1

/-- Source: `#define ANCHOR_ID -2`. -/
def ANCHOR_ID : Int := -2

/-- Source: `#define MAGNET_ID -3`. -/
def MAGNET_ID : Int := -3

/-- Source: `static const int NUM_SET_PAIRS = 2`. -/
def NUM_SET_PAIRS : Nat := 2

/-- Conversion of an `int` to a 32-bit `unsigned` (reduction modulo `2 ^ 32`), as performed
by the assignments `score = -2` and `scoreLimit = -1`. -/
def toUnsigned (x : Int) : Nat := (x % 2 ^ 32).toNat

/-- Modelled from the spec: `DistanceBetweenGenomeLocations` is declared in a header that is
not among the sources; the spec reads the merge rule as "within 50 bases", that is, the
absolute distance between the two locations. -/
def DistanceBetweenGenomeLocations (loc1 loc2 : Int) : Int := ((loc1 - loc2).natAbs : Int)

/-! ## `ScoringMateCandidate` (lines 488–510) -/

/-- The more-hits side entry, `struct ScoringMateCandidate`. -/
structure ScoringMateCandidate where
  matchProbability : Float
  readWithMoreHitsGenomeLocation : Int
  bestPossibleScore : Nat
  score : Nat
  scoreLimit : Nat
  seedOffset : Nat
  genomeOffset : Int

/-- Source: `ScoringMateCandidate::init`. The method assigns every field of `this`. -/
def ScoringMateCandidate.init (_this : ScoringMateCandidate)
    (readWithMoreHitsGenomeLocation_ : Int) (bestPossibleScore_ seedOffset_ : Nat) :
    ScoringMateCandidate :=
  { readWithMoreHitsGenomeLocation := readWithMoreHitsGenomeLocation_
    bestPossibleScore := bestPossibleScore_
    seedOffset := seedOffset_
    score := toUnsigned (-2)
    scoreLimit := toUnsigned (-1)
    matchProbability := 0
    genomeOffset := 0 }

/-! ## `ScoringCandidate` (lines 512–539) -/

/-- The fewer-hits side entry, `struct ScoringCandidate`. -/
structure ScoringCandidate where
  scoreListNext : Option Nat
  mergeAnchor : Option Nat
  scoringMateCandidateIndex : Nat
  readWithFewerHitsGenomeLocation : Int
  fewerEndGenomeLocationOffset : Int
  whichSetPair : Nat
  seedOffset : Nat
  bestPossibleScore : Nat
  fewerEndScore : Nat
  clusterIdx : Int
  deriving DecidableEq, Repr

/-- Source: `ScoringCandidate::init`. The fields `fewerEndGenomeLocationOffset` and
`fewerEndScore` are not assigned and keep the value the pool entry had. The
`_ASSERT(whichSetPair < NUM_SET_PAIRS)` is a failure (`none`) when it does not hold. -/
def ScoringCandidate.init (this : ScoringCandidate)
    (readWithFewerHitsGenomeLocation_ : Int) (whichSetPair_ scoringMateCandidateIndex_
      seedOffset_ bestPossibleScore_ : Nat) (scoreListNext_ : Option Nat) (clusterIdx_ : Int) :
    Option ScoringCandidate :=
  if whichSetPair_ < NUM_SET_PAIRS then
    some { this with
      readWithFewerHitsGenomeLocation := readWithFewerHitsGenomeLocation_
      whichSetPair := whichSetPair_
      scoringMateCandidateIndex := scoringMateCandidateIndex_
      seedOffset := seedOffset_
      bestPossibleScore := bestPossibleScore_
      scoreListNext := scoreListNext_
      mergeAnchor := none
      clusterIdx := clusterIdx_ }
  else none

/-! ## `MergeAnchor` (lines 545–599) -/

/-- The near-duplicate aggregator, `struct MergeAnchor`. -/
structure MergeAnchor where
  matchProbability : Float
  locationForReadWithMoreHits : Int
  locationForReadWithFewerHits : Int
  resultPtr : Option Nat
  pairScore : Int
  clusterIdx : Int
  candidate : Option Nat
  mate : Option Nat

/-- Source: `MergeAnchor::init`. The method assigns every field of `this`. -/
def MergeAnchor.init (_this : MergeAnchor)
    (locationForReadWithMoreHits_ locationForReadWithFewerHits_ : Int)
    (matchProbability_ : Float) (pairScore_ clusterIdx_ : Int)
    (candidate_ mate_ : Option Nat) : MergeAnchor :=
  { locationForReadWithMoreHits := locationForReadWithMoreHits_
    locationForReadWithFewerHits := locationForReadWithFewerHits_
    matchProbability := matchProbability_
    pairScore := pairScore_
    clusterIdx := clusterIdx_
    candidate := candidate_
    mate := mate_
    resultPtr := none }

/-- Source: `MergeAnchor::doesRangeMatch`:
`return deltaMore < 50 && deltaFewer < 50;`. -/
def MergeAnchor.doesRangeMatch (this : MergeAnchor)
    (newMoreHitLocation newFewerHitLocation : Int) : Bool :=
  let deltaMore := DistanceBetweenGenomeLocations this.locationForReadWithMoreHits newMoreHitLocation
  let deltaFewer := DistanceBetweenGenomeLocations this.locationForReadWithFewerHits newFewerHitLocation
  decide (deltaMore < 50) && decide (deltaFewer < 50)

/-- An anchor at the two given locations, every other field cleared. -/
def anchorAt (more fewer : Int) : MergeAnchor :=
  { matchProbability := 0
    locationForReadWithMoreHits := more
    locationForReadWithFewerHits := fewer
    resultPtr := none
    pairScore := 0
    clusterIdx := UNLINKED_ID
    candidate := none
    mate := none }

/-! ## The `seedUsed` bitmap (lines 449–457) -/

/-- Read of `seedUsed[index]` for a 64-bit signed index: an index outside the allocated bytes
has no defined value. -/
def readSeedUsedByte (seedUsed : List Nat) (index : Int) : Option Nat :=
  if 0 ≤ index then seedUsed[index.toNat]? else none

/-- The `int` expression `1 << count`; a negative shift count has no defined value. -/
def oneShiftedLeft (count : Int) : Option Nat :=
  if 0 ≤ count then some (1 <<< count.toNat) else none

/-- Source: `IsSeedUsed`:
`return (seedUsed[indexInRead / 8] & (1 << (indexInRead % 8))) != 0;`.
`/` and `%` on `_int64` truncate toward zero (`Int.tdiv`, `Int.tmod`). -/
def IsSeedUsed (seedUsed : List Nat) (indexInRead : Int) : Option Bool :=
  match readSeedUsedByte seedUsed (indexInRead.tdiv 8), oneShiftedLeft (indexInRead.tmod 8) with
  | some byte, some mask => some ((byte &&& mask) != 0)
  | _, _ => none

/-- Source: `SetSeedUsed`:
`seedUsed[indexInRead / 8] |= (1 << (indexInRead % 8));`.
The result of the `|` is stored back into a `BYTE`, that is, modulo 256. -/
def SetSeedUsed (seedUsed : List Nat) (indexInRead : Int) : Option (List Nat) :=
  match readSeedUsedByte seedUsed (indexInRead.tdiv 8), oneShiftedLeft (indexInRead.tmod 8) with
  | some byte, some mask => some (seedUsed.set (indexInRead.tdiv 8).toNat ((byte ||| mask) % 256))
  | _, _ => none

/-! ## The scoring candidate pool and the bucket lists (lines 601–616) -/

/-- The members `scoringCandidatePool`, `lowestFreeScoringCandidatePoolEntry` and
`scoringCandidates` (one list head per `bestPossibleScore`). `scoringCandidatePoolSize` is
the length of `scoringCandidatePool`. -/
structure CandidatePools where
  scoringCandidatePool : List ScoringCandidate
  lowestFreeScoringCandidatePoolEntry : Nat
  scoringCandidates : List (Option Nat)

/-- The arguments the aligner passes to `ScoringCandidate::init` besides the list head. -/
structure CandidateArgs where
  readWithFewerHitsGenomeLocation : Int
  whichSetPair : Nat
  scoringMateCandidateIndex : Nat
  seedOffset : Nat
  bestPossibleScore : Nat
  clusterIdx : Int
  deriving DecidableEq, Repr

/-- The arguments a pool entry was initialised with, read back from the entry. -/
def ScoringCandidate.args (c : ScoringCandidate) : CandidateArgs :=
  { readWithFewerHitsGenomeLocation := c.readWithFewerHitsGenomeLocation
    whichSetPair := c.whichSetPair
    scoringMateCandidateIndex := c.scoringMateCandidateIndex
    seedOffset := c.seedOffset
    bestPossibleScore := c.bestPossibleScore
    clusterIdx := c.clusterIdx }

/-- Modelled from the spec: the statement that links a new candidate into its bucket is in
the aligner's implementation file, which is not among the sources. Following the pool
comment (entries are handed out at `lowestFreeScoringCandidatePoolEntry`, which is then
bumped) and the spec ("a `ScoringCandidate` is allocated for `L_f` and linked into the
`scoringCandidates[bestPossibleScore]` bucket"), the free entry is initialised by
`ScoringCandidate::init` with `scoreListNext_` the current head of the bucket and then
becomes the head. Pool exhaustion, a `bestPossibleScore` outside the bucket array and a
failed assertion are failures. -/
def addScoringCandidate (p : CandidatePools) (a : CandidateArgs) : Option CandidatePools :=
  match p.scoringCandidatePool[p.lowestFreeScoringCandidatePoolEntry]?,
      p.scoringCandidates[a.bestPossibleScore]? with
  | some entry, some head =>
    match entry.init a.readWithFewerHitsGenomeLocation a.whichSetPair
        a.scoringMateCandidateIndex a.seedOffset a.bestPossibleScore head a.clusterIdx with
    | some c =>
      some { scoringCandidatePool :=
               p.scoringCandidatePool.set p.lowestFreeScoringCandidatePoolEntry c
             lowestFreeScoringCandidatePoolEntry := p.lowestFreeScoringCandidatePoolEntry + 1
             scoringCandidates :=
               p.scoringCandidates.set a.bestPossibleScore
                 (some p.lowestFreeScoringCandidatePoolEntry) }
    | none => none
  | _, _ => none

/-- Candidates added one after the other, in the order of the list. -/
def addScoringCandidates : CandidatePools → List CandidateArgs → Option CandidatePools
  | p, [] => some p
  | p, a :: rest =>
    match addScoringCandidate p a with
    | some q => addScoringCandidates q rest
    | none => none

/-- The state at the start of an `align` call: `lowestFreeScoringCandidatePoolEntry` is 0 and
every bucket is empty; the pool entries keep whatever they held. -/
def resetPools (pool : List ScoringCandidate) (nBuckets : Nat) : CandidatePools :=
  { scoringCandidatePool := pool
    lowestFreeScoringCandidatePoolEntry := 0
    scoringCandidates := List.replicate nBuckets none }

/-- The traversal `for (c = head; c != NULL; c = c->scoreListNext)` of one bucket, returning
the candidates in the order visited. `fuel` bounds the number of steps; `none` when the fuel
runs out or a pointer leaves the pool. -/
def scoreListFrom (pool : List ScoringCandidate) : Nat → Option Nat → Option (List ScoringCandidate)
  | _, none => some []
  | 0, some _ => none
  | fuel + 1, some i =>
    match pool[i]? with
    | some c =>
      match scoreListFrom pool fuel c.scoreListNext with
      | some rest => some (c :: rest)
      | none => none
    | none => none

/-- The candidates of bucket `b` in processing order (fuel: the pool size). -/
def bucketOrder (p : CandidatePools) (b : Nat) : Option (List ScoringCandidate) :=
  match p.scoringCandidates[b]? with
  | some head => scoreListFrom p.scoringCandidatePool p.scoringCandidatePool.length head
  | none => none

/-- The pool entries reached from a list head by following `scoreListNext`, each with its
index in the pool, up to the `NULL` that ends the list. -/
inductive Chain (pool : List ScoringCandidate) :
    Option Nat → List (Nat × ScoringCandidate) → Prop where
  | nil : Chain pool none []
  | cons {i : Nat} {c : ScoringCandidate} {l : List (Nat × ScoringCandidate)} :
      pool[i]? = some c → Chain pool c.scoreListNext l → Chain pool (some i) ((i, c) :: l)

/-- The invariant of the pools after the candidates `hist` have been added to the reset
pools: the next free entry is `hist.length`, and the list of every bucket `b` runs through
entries below it that carry, most recent first, the arguments of the candidates added with
`bestPossibleScore = b`. -/
def PoolsAfter (p : CandidatePools) (hist : List CandidateArgs) : Prop :=
  p.lowestFreeScoringCandidatePoolEntry = hist.length ∧
  hist.length ≤ p.scoringCandidatePool.length ∧
  ∀ b head, p.scoringCandidates[b]? = some head →
    ∃ l, Chain p.scoringCandidatePool head l ∧
      (∀ x ∈ l, x.1 < p.lowestFreeScoringCandidatePoolEntry) ∧
      l.map (fun x => x.2.args) = (hist.filter (fun a => a.bestPossibleScore = b)).reverse

/-- A pool entry with every field cleared. -/
def blankEntry : ScoringCandidate :=
  { scoreListNext := none
    mergeAnchor := none
    scoringMateCandidateIndex := 0
    readWithFewerHitsGenomeLocation := 0
    fewerEndGenomeLocationOffset := 0
    whichSetPair := 0
    seedOffset := 0
    bestPossibleScore := 0
    fewerEndScore := 0
    clusterIdx := 0 }

/-- Three candidates in strictly descending genome order: 450 and 100 with
`bestPossibleScore = 1`, and between them 300 with `bestPossibleScore = 0`. -/
def threeCandidates : List CandidateArgs :=
  [⟨450, 0, 0, 0, 1, UNLINKED_ID⟩, ⟨300, 1, 0, 4, 0, UNLINKED_ID⟩, ⟨100, 0, 1, 0, 1, 7⟩]

end TenXSingleAligner

namespace SummarizeReads

/-! ## `SummarizeReads.cpp`

A worker thread owns its `ThreadContext`; `main` reads the contexts only after every worker
has finished. A run is therefore described by the sequence of reads each worker's
`ReadSupplier` hands out, one list per thread. The paired-distance statistics (which need the
genome's contig table) are left out of the record; no other field depends on them. -/

/-- Reduction of an integer to the range of `_int64`. -/
def wrapInt64 (x : Int) : Int := (x + 2 ^ 63) % 2 ^ 64 - 2 ^ 63

/-- Reduction of an integer to the range of `int`. -/
def wrapInt32 (x : Int) : Int := (x + 2 ^ 31) % 2 ^ 32 - 2 ^ 31

/-- The macro `__min(a, b)`: `(((a) < (b)) ? (a) : (b))`. -/
def __min (a b : Int) : Int := if a < b then a else b

/-- The macro `__max(a, b)`: `(((a) > (b)) ? (a) : (b))`. -/
def __max (a b : Int) : Int := if a > b then a else b

/-- Modelled from the spec: `SAM_MULTI_SEGMENT` is defined in `SAM.h`, which is not among the
sources; its value is `0x1`. -/
def SAM_MULTI_SEGMENT : Nat := 0x1

/-- What the worker reads from a `Read`: the bases `getData()[0 .. getDataLength())` as
character codes, and `getOriginalSAMFlags()`. -/
structure Read where
  data : List Nat
  originalSAMFlags : Nat
  deriving DecidableEq, Repr

/-- The call `read->getDataLength()`. -/
def Read.getDataLength (read : Read) : Nat := read.data.length

/-- The fields of `struct ThreadContext` that do not concern paired distances. -/
structure ThreadContext where
  totalReads : Int
  minReadLength : Int
  maxReadLength : Int
  totalReadLength : Int
  minGoodBases : Int
  maxGoodBases : Int
  totalGoodBases : Int
  anyPaired : Bool
  allPaired : Bool
  deriving DecidableEq, Repr

/-- Source: lines 83–86 of `WorkerThreadMain`, the context before the first read. -/
def initialContext : ThreadContext :=
  { totalReads := 0
    maxReadLength := 0
    maxGoodBases := 0
    totalReadLength := 0
    totalGoodBases := 0
    minGoodBases := 10000000000
    minReadLength := 10000000000
    allPaired := true
    anyPaired := false }

/-- Source: lines 103–108, the loop counting the bases whose `BASE_VALUE` is not 4 in the
`int` variable `nGoodBases`. The table `BASE_VALUE` (from `Tables.h`) is a parameter. -/
def countGoodBases (BASE_VALUE : Nat → Nat) (data : List Nat) : Int :=
  data.foldl (fun nGoodBases base =>
    if BASE_VALUE base != 4 then wrapInt32 (nGoodBases + 1) else nGoodBases) 0

/-- Source: lines 95–112, the body of the `while` loop for one read. `a &= x` and `a |= x` on
a `bool` compute on the integer values and convert the result back to `bool`. -/
def processRead (BASE_VALUE : Nat → Nat) (context : ThreadContext) (read : Read) :
    ThreadContext :=
  let nGoodBases := countGoodBases BASE_VALUE read.data
  { minReadLength := __min read.getDataLength context.minReadLength
    maxReadLength := __max read.getDataLength context.maxReadLength
    totalReads := wrapInt64 (context.totalReads + 1)
    totalReadLength := wrapInt64 (context.totalReadLength + read.getDataLength)
    allPaired := (context.allPaired.toNat &&& (read.originalSAMFlags &&& SAM_MULTI_SEGMENT)) != 0
    anyPaired := (context.anyPaired.toNat ||| (read.originalSAMFlags &&& SAM_MULTI_SEGMENT)) != 0
    minGoodBases := __min nGoodBases context.minGoodBases
    maxGoodBases := __max nGoodBases context.maxGoodBases
    totalGoodBases := wrapInt64 (context.totalGoodBases + nGoodBases) }

/-- Source: lines 94–148, the `while` loop: take the next read of the supplier, process it,
and `break` once `context->totalReads >= nReadsPerThread`. -/
def workerLoop (BASE_VALUE : Nat → Nat) (nReadsPerThread : Int) :
    ThreadContext → List Read → ThreadContext
  | context, [] => context
  | context, read :: supplier =>
    let context1 := processRead BASE_VALUE context read
    if context1.totalReads ≥ nReadsPerThread then context1
    else workerLoop BASE_VALUE nReadsPerThread context1 supplier

/-- Source: `WorkerThreadMain`, on the reads its supplier hands out. -/
def WorkerThreadMain (BASE_VALUE : Nat → Nat) (nReadsPerThread : Int) (supplier : List Read) :
    ThreadContext :=
  workerLoop BASE_VALUE nReadsPerThread initialContext supplier

/-- Source: lines 241–254 of `main`, the cross-thread values before the first context is
added. The record type is shared with the workers. -/
def initialTotals : ThreadContext :=
  { totalReads := 0
    minReadLength := 1000000
    maxReadLength := 0
    totalReadLength := 0
    minGoodBases := 1000000
    maxGoodBases := 0
    totalGoodBases := 0
    anyPaired := false
    allPaired := true }

/-- Source: lines 257–279 of `main`, the body of the loop over `threadContexts`. -/
def addContext (totals context : ThreadContext) : ThreadContext :=
  { totalReads := wrapInt64 (totals.totalReads + context.totalReads)
    minReadLength := __min context.minReadLength totals.minReadLength
    maxReadLength := __max context.maxReadLength totals.maxReadLength
    totalReadLength := wrapInt64 (totals.totalReadLength + context.totalReadLength)
    minGoodBases := __min context.minGoodBases totals.minGoodBases
    maxGoodBases := __max context.maxGoodBases totals.maxGoodBases
    totalGoodBases := wrapInt64 (totals.totalGoodBases + context.totalGoodBases)
    anyPaired := (totals.anyPaired.toNat ||| context.anyPaired.toNat) != 0
    allPaired := (totals.allPaired.toNat &&& context.allPaired.toNat) != 0 }

/-- Source: `main` from the start of the workers to the values handed to `fprintf`: one
worker per supplier, then the loop over the contexts. -/
def reported (BASE_VALUE : Nat → Nat) (nReadsPerThread : Int) (suppliers : List (List Read)) :
    ThreadContext :=
  (suppliers.map (WorkerThreadMain BASE_VALUE nReadsPerThread)).foldl addContext initialTotals

/-- The reads a worker samples from its supplier: it stops after the read that brings its
count to `nReadsPerThread`, and never before its first read. -/
def sampledBy (nReadsPerThread : Int) (supplier : List Read) : List Read :=
  supplier.take (max 1 nReadsPerThread).toNat

/-- All the reads sampled in a run, thread after thread. -/
def sampled (nReadsPerThread : Int) (suppliers : List (List Read)) : List Read :=
  (suppliers.map (sampledBy nReadsPerThread)).flatten

/-- The number of non-N bases of a read: the positions whose `BASE_VALUE` is not 4. -/
def Read.goodBases (BASE_VALUE : Nat → Nat) (read : Read) : Nat :=
  (read.data.filter (fun base => BASE_VALUE base ≠ 4)).length

/-- Whether a read has the multi-segment flag set. -/
def Read.isPaired (read : Read) : Bool :=
  (read.originalSAMFlags &&& SAM_MULTI_SEGMENT) != 0

/-- A read of 1000001 bases `A` without flags. -/
def longRead : Read := ⟨List.replicate 1000001 65, 0⟩

/-- A base table in the manner of `Tables.h`: A, C, G, T are 0 to 3, anything else is 4. -/
def exampleBaseValue (base : Nat) : Nat :=
  if base = 65 then 0 else if base = 67 then 1 else if base = 71 then 2
  else if base = 84 then 3 else 4

/-- Two workers: the first is handed `ANC` (paired), `A` and `AT`, the second `GG` (paired). -/
def exampleSuppliers : List (List Read) :=
  [[⟨[65, 78, 67], 1⟩, ⟨[65], 0⟩, ⟨[65, 84], 0⟩], [⟨[71, 71], 0x41⟩]]

/-! ### The sample size (lines 163–165 and 201–209 of `main`) -/

/-- Source: `int nReadsToSample = 10000000; if (5 != argc && 6 != argc) usage();`. `argv`
holds the program name and the user arguments, so `argc` is its length; `usage()` ends the
program (`none`). No later statement of `main` assigns `nReadsToSample`. -/
def mainNReadsToSample (argv : List String) : Option Int :=
  if argv.length ≠ 5 ∧ argv.length ≠ 6 then none else some 10000000

/-- Source: `nReadsPerThread = (nReadsToSample + nThreads - 1) / nThreads;` with
`int nReadsToSample`, `unsigned nThreads` and `int nReadsPerThread`: the sum and the quotient
are computed in `unsigned` arithmetic (modulo `2 ^ 32`) and the quotient is converted to
`int`. A division by zero has no defined value. -/
def nReadsPerThreadOf (nReadsToSample : Int) (nThreads : Nat) : Option Int :=
  if nThreads = 0 then none
  else some (wrapInt32 (((nReadsToSample + nThreads - 1) % 2 ^ 32) / nThreads))

/-- Source: `main` up to line 209: the per-thread quota of a run with the arguments `argv` on
a machine where `GetNumberOfProcessors()` is `nThreads`. -/
def mainNReadsPerThread (argv : List String) (nThreads : Nat) : Option Int :=
  match mainNReadsToSample argv with
  | some nReadsToSample => nReadsPerThreadOf nReadsToSample nThreads
  | none => none

/-- A supplier that hands out 3333334 reads of one base. -/
def manyReads : List Read := List.replicate 3333334 ⟨[65], 0⟩

/-- Three suppliers that each hold at least 3333334 reads; the third holds one read more. -/
def quotaSuppliers : List (List Read) :=
  [manyReads, manyReads, ⟨[71, 84], 1⟩ :: manyReads]

end SummarizeReads

/-! # Theorems -/

namespace TenXSingleAligner

/-! ## The merge anchor's range test -/

theorem DistanceBetweenGenomeLocations_eq_abs (loc1 loc2 : Int) :
    DistanceBetweenGenomeLocations loc1 loc2 = |loc1 - loc2| := by
  unfold DistanceBetweenGenomeLocations
  exact Int.natCast_natAbs (loc1 - loc2)

/-- The range test in terms of absolute distances. -/
theorem doesRangeMatch_eq_true_iff (anchor : MergeAnchor) (newMore newFewer : Int) :
    anchor.doesRangeMatch newMore newFewer = true ↔
      |anchor.locationForReadWithMoreHits - newMore| < 50 ∧
        |anchor.locationForReadWithFewerHits - newFewer| < 50 := by
  simp [MergeAnchor.doesRangeMatch, DistanceBetweenGenomeLocations_eq_abs]

/-- Claim C1. `doesRangeMatch` decides on both ends together: it is true when both absolute
distances to the anchor are below 50 bases and false when either is above 50 bases; an anchor
at (100, 450) matches (101, 451) and does not match (100000, 100350). -/
theorem doesRangeMatch_both_ends (anchor : MergeAnchor) (newMore newFewer : Int) :
    ((|anchor.locationForReadWithMoreHits - newMore| < 50 ∧
        |anchor.locationForReadWithFewerHits - newFewer| < 50) →
      anchor.doesRangeMatch newMore newFewer = true) ∧
    ((|anchor.locationForReadWithMoreHits - newMore| > 50 ∨
        |anchor.locationForReadWithFewerHits - newFewer| > 50) →
      anchor.doesRangeMatch newMore newFewer = false) ∧
    ((anchor.locationForReadWithMoreHits = 100 ∧ anchor.locationForReadWithFewerHits = 450) →
      anchor.doesRangeMatch 101 451 = true ∧ anchor.doesRangeMatch 100000 100350 = false) := by
  refine ⟨fun h => (doesRangeMatch_eq_true_iff anchor newMore newFewer).2 h, fun h => ?_, ?_⟩
  · rw [← Bool.not_eq_true, doesRangeMatch_eq_true_iff]
    rintro ⟨h1, h2⟩
    rcases h with h | h <;> omega
  · rintro ⟨h1, h2⟩
    constructor
    · rw [doesRangeMatch_eq_true_iff, h1, h2]
      norm_num
    · rw [← Bool.not_eq_true, doesRangeMatch_eq_true_iff, h1, h2]
      norm_num

/-- Claim C2, as stated, fails: the placement (150, 500), exactly 50 bases from the anchor
(100, 450) on both ends, is not matched; so it is not true that every anchor matches the
placement 50 bases away on both ends. -/
theorem doesRangeMatch_fifty_inclusive_fails :
    (anchorAt 100 450).doesRangeMatch (100 + 50) (450 + 50) = false ∧
    ¬ (∀ anchor : MergeAnchor,
        anchor.doesRangeMatch (anchor.locationForReadWithMoreHits + 50)
          (anchor.locationForReadWithFewerHits + 50) = true) := by
  have h : (anchorAt 100 450).doesRangeMatch (100 + 50) (450 + 50) = false := by decide
  refine ⟨h, fun hall => ?_⟩
  have h2 := hall (anchorAt 100 450)
  simp only [anchorAt] at h h2
  rw [h] at h2
  exact Bool.false_ne_true h2

/-- Claim C2, amended. The merge distance is exclusive: a placement exactly 50 bases from the
anchor on both ends is not matched, a placement 49 bases away on both ends is, and in general
the anchor matches exactly the placements at most 49 bases away on each end. -/
theorem doesRangeMatch_fifty_exclusive (anchor : MergeAnchor) (newMore newFewer : Int) :
    anchor.doesRangeMatch (anchor.locationForReadWithMoreHits + 50)
        (anchor.locationForReadWithFewerHits + 50) = false ∧
    anchor.doesRangeMatch (anchor.locationForReadWithMoreHits + 49)
        (anchor.locationForReadWithFewerHits + 49) = true ∧
    (anchor.doesRangeMatch newMore newFewer = true ↔
      |anchor.locationForReadWithMoreHits - newMore| ≤ 49 ∧
        |anchor.locationForReadWithFewerHits - newFewer| ≤ 49) := by
  refine ⟨?_, ?_, ?_⟩
  · rw [← Bool.not_eq_true, doesRangeMatch_eq_true_iff]
    simp
  · rw [doesRangeMatch_eq_true_iff]
    simp
  · rw [doesRangeMatch_eq_true_iff]
    omega

/-! ## Cluster-tag sentinels -/

/-- Claim C3. The sentinels are -1, -2 and -3, pairwise distinct and negative, so the
`clusterIdx` of a candidate or of a merge anchor that holds a real (non-negative) cluster
index equals none of them. -/
theorem cluster_sentinels_distinct_negative :
    UNLINKED_ID = -1 ∧ ANCHOR_ID = -2 ∧ MAGNET_ID = -3 ∧
    UNLINKED_ID ≠ ANCHOR_ID ∧ UNLINKED_ID ≠ MAGNET_ID ∧ ANCHOR_ID ≠ MAGNET_ID ∧
    UNLINKED_ID < 0 ∧ ANCHOR_ID < 0 ∧ MAGNET_ID < 0 ∧
    (∀ candidate : ScoringCandidate, 0 ≤ candidate.clusterIdx →
      candidate.clusterIdx ≠ UNLINKED_ID ∧ candidate.clusterIdx ≠ ANCHOR_ID ∧
        candidate.clusterIdx ≠ MAGNET_ID) ∧
    (∀ anchor : MergeAnchor, 0 ≤ anchor.clusterIdx →
      anchor.clusterIdx ≠ UNLINKED_ID ∧ anchor.clusterIdx ≠ ANCHOR_ID ∧
        anchor.clusterIdx ≠ MAGNET_ID) := by
  refine ⟨rfl, rfl, rfl, by decide, by decide, by decide, by decide, by decide, by decide,
    fun c h => ?_, fun a h => ?_⟩ <;>
  · simp only [UNLINKED_ID, ANCHOR_ID, MAGNET_ID]
    omega

/-! ## The unscored mate -/

/-- Claim C4. After `ScoringMateCandidate::init`, whatever the three arguments and the previous
content of the entry, `score` is `2 ^ 32 - 2`: not 0, not the "exceeds limit" value
`2 ^ 32 - 1` (the `unsigned` image of -1), and not a score `s` within the search depth
`maxK + extraSearchDepth`, the depth being below the two sentinels; `matchProbability` and
`genomeOffset` are 0. -/
theorem init_mate_unscored (entry : ScoringMateCandidate)
    (readWithMoreHitsGenomeLocation : Int) (bestPossibleScore seedOffset : Nat)
    (maxK extraSearchDepth s : Nat) (hdepth : maxK + extraSearchDepth < 2 ^ 32 - 2)
    (hs : s ≤ maxK + extraSearchDepth) :
    (entry.init readWithMoreHitsGenomeLocation bestPossibleScore seedOffset).score = 2 ^ 32 - 2 ∧
    (entry.init readWithMoreHitsGenomeLocation bestPossibleScore seedOffset).score ≠ 0 ∧
    (entry.init readWithMoreHitsGenomeLocation bestPossibleScore seedOffset).score ≠ s ∧
    (entry.init readWithMoreHitsGenomeLocation bestPossibleScore seedOffset).score ≠ 2 ^ 32 - 1 ∧
    (entry.init readWithMoreHitsGenomeLocation bestPossibleScore seedOffset).score
      ≠ toUnsigned (-1) ∧
    (entry.init readWithMoreHitsGenomeLocation bestPossibleScore seedOffset).matchProbability = 0 ∧
    (entry.init readWithMoreHitsGenomeLocation bestPossibleScore seedOffset).genomeOffset = 0 := by
  have hscore :
      (entry.init readWithMoreHitsGenomeLocation bestPossibleScore seedOffset).score
        = 4294967294 := by
    show toUnsigned (-2) = 4294967294
    decide
  have h1 : toUnsigned (-1) = 4294967295 := by decide
  rw [hscore, h1]
  refine ⟨by norm_num, by norm_num, by omega, by norm_num, by norm_num, rfl, rfl⟩

/-- Claim C4 at a concrete entry: location 100, lower bound 1, seed offset 7, with
`maxK = 14`, `extraSearchDepth = 2` and the score 16. -/
theorem init_mate_unscored_witness :
    (ScoringMateCandidate.init ⟨1, 5, 0, 3, 3, 0, 9⟩ 100 1 7).score = 2 ^ 32 - 2 ∧
    (ScoringMateCandidate.init ⟨1, 5, 0, 3, 3, 0, 9⟩ 100 1 7).score ≠ 0 ∧
    (ScoringMateCandidate.init ⟨1, 5, 0, 3, 3, 0, 9⟩ 100 1 7).score ≠ 16 ∧
    (ScoringMateCandidate.init ⟨1, 5, 0, 3, 3, 0, 9⟩ 100 1 7).score ≠ 2 ^ 32 - 1 ∧
    (ScoringMateCandidate.init ⟨1, 5, 0, 3, 3, 0, 9⟩ 100 1 7).score ≠ toUnsigned (-1) ∧
    (ScoringMateCandidate.init ⟨1, 5, 0, 3, 3, 0, 9⟩ 100 1 7).matchProbability = 0 ∧
    (ScoringMateCandidate.init ⟨1, 5, 0, 3, 3, 0, 9⟩ 100 1 7).genomeOffset = 0 :=
  init_mate_unscored ⟨1, 5, 0, 3, 3, 0, 9⟩ 100 1 7 14 2 16 (by norm_num) (by norm_num)

/-! ## The `seedUsed` bitmap -/

theorem and_one_shiftLeft_ne_zero (byte k : Nat) :
    ((byte &&& (1 <<< k)) != 0) = byte.testBit k := by
  rw [Nat.one_shiftLeft]
  cases hb : byte.testBit k
  · have h0 : byte &&& 2 ^ k = 0 := by
      apply Nat.eq_of_testBit_eq
      intro i
      rw [Nat.testBit_and, Nat.testBit_two_pow, Nat.zero_testBit]
      by_cases hki : k = i
      · subst hki; simp [hb]
      · simp [hki]
    simp [h0]
  · have h1 : (byte &&& 2 ^ k).testBit k = true := by
      rw [Nat.testBit_and, Nat.testBit_two_pow_self, hb]; rfl
    have hne : byte &&& 2 ^ k ≠ 0 := by
      intro h0
      rw [h0, Nat.zero_testBit] at h1
      exact Bool.false_ne_true h1
    simpa using hne

theorem testBit_set_byte (byte k l : Nat) (hl : l < 8) :
    ((byte ||| (1 <<< k)) % 256).testBit l = (decide (l = k) || byte.testBit l) := by
  have h256 : (256 : Nat) = 2 ^ 8 := by norm_num
  rw [h256, Nat.testBit_mod_two_pow, Nat.one_shiftLeft, Nat.testBit_or, Nat.testBit_two_pow]
  simp only [hl, decide_True, Bool.true_and]
  rw [Bool.or_comm]
  congr 1
  simp [eq_comm]

theorem set_byte_idem (byte k : Nat) :
    (((byte ||| (1 <<< k)) % 256) ||| (1 <<< k)) % 256 = (byte ||| (1 <<< k)) % 256 := by
  apply Nat.eq_of_testBit_eq
  intro i
  have h256 : (256 : Nat) = 2 ^ 8 := by norm_num
  rw [h256]
  simp only [Nat.testBit_mod_two_pow, Nat.one_shiftLeft, Nat.testBit_or, Nat.testBit_two_pow]
  by_cases hi : i < 8
  · simp [hi]
  · simp [hi]

theorem IsSeedUsed_natCast (seedUsed : List Nat) (n : Nat) :
    IsSeedUsed seedUsed (n : Int) = (seedUsed[n / 8]?).map (fun byte => byte.testBit (n % 8)) := by
  have hd : (n : Int).tdiv 8 = ((n / 8 : Nat) : Int) := (Int.ofNat_tdiv n 8).symm
  have hm : (n : Int).tmod 8 = ((n % 8 : Nat) : Int) := (Int.ofNat_tmod n 8).symm
  unfold IsSeedUsed readSeedUsedByte oneShiftedLeft
  rw [hd, hm]
  simp only [Int.natCast_nonneg, if_true, Int.toNat_ofNat]
  cases h : seedUsed[n / 8]? with
  | none => rfl
  | some byte => simp [and_one_shiftLeft_ne_zero]

theorem SetSeedUsed_natCast (seedUsed : List Nat) (n : Nat) :
    SetSeedUsed seedUsed (n : Int) =
      (seedUsed[n / 8]?).map (fun byte => seedUsed.set (n / 8) ((byte ||| (1 <<< (n % 8))) % 256)) := by
  have hd : (n : Int).tdiv 8 = ((n / 8 : Nat) : Int) := (Int.ofNat_tdiv n 8).symm
  have hm : (n : Int).tmod 8 = ((n % 8 : Nat) : Int) := (Int.ofNat_tmod n 8).symm
  unfold SetSeedUsed readSeedUsedByte oneShiftedLeft
  rw [hd, hm]
  simp only [Int.natCast_nonneg, if_true, Int.toNat_ofNat]
  cases h : seedUsed[n / 8]? with
  | none => rfl
  | some byte => rfl

theorem seedUsed_set_test_natCast (seedUsed : List Nat) (n m : Nat)
    (hn : n < 8 * seedUsed.length) (hm : m < 8 * seedUsed.length) :
    ∃ after before, SetSeedUsed seedUsed (n : Int) = some after ∧
      IsSeedUsed seedUsed (m : Int) = some before ∧
      IsSeedUsed after (m : Int) = some (decide (m = n) || before) ∧
      after.length = seedUsed.length ∧
      SetSeedUsed after (n : Int) = some after := by
  have hn8 : n / 8 < seedUsed.length := by omega
  have hm8 : m / 8 < seedUsed.length := by omega
  have hnk : n % 8 < 8 := Nat.mod_lt _ (by norm_num)
  have hmk : m % 8 < 8 := Nat.mod_lt _ (by norm_num)
  obtain ⟨bn, hbn⟩ : ∃ b, seedUsed[n / 8]? = some b := ⟨_, List.getElem?_eq_getElem hn8⟩
  obtain ⟨bm, hbm⟩ : ∃ b, seedUsed[m / 8]? = some b := ⟨_, List.getElem?_eq_getElem hm8⟩
  refine ⟨seedUsed.set (n / 8) ((bn ||| (1 <<< (n % 8))) % 256), bm.testBit (m % 8),
    ?_, ?_, ?_, ?_, ?_⟩
  · rw [SetSeedUsed_natCast, hbn]; rfl
  · rw [IsSeedUsed_natCast, hbm]; rfl
  · rw [IsSeedUsed_natCast]
    by_cases hq : n / 8 = m / 8
    · have hb : bm = bn := by
        rw [hq, hbm] at hbn
        exact Option.some.inj hbn
      have hmn : (m % 8 = n % 8) ↔ (m = n) := by omega
      rw [← hq, List.getElem?_set_self hn8, Option.map_some', testBit_set_byte _ _ _ hmk, hb]
      simp only [hmn]
    · have hmn : ¬ m = n := fun h => hq (by rw [h])
      rw [List.getElem?_set_ne hq, hbm]
      simp [hmn]
  · simp
  · rw [SetSeedUsed_natCast, List.getElem?_set_self hn8]
    simp only [Option.map_some', List.set_set]
    rw [set_byte_idem]

/-- Claim C5. For positions `i, j ≥ 0` inside the bitmap, `SetSeedUsed(i)` succeeds and
afterwards `IsSeedUsed(j)` is true exactly when `j = i` or it was true before; the bitmap keeps
its size, and setting `i` a second time changes nothing. -/
theorem seedUsed_set_then_test (seedUsed : List Nat) (i j : Int) (hi : 0 ≤ i) (hj : 0 ≤ j)
    (hib : i < 8 * seedUsed.length) (hjb : j < 8 * seedUsed.length) :
    ∃ after before, SetSeedUsed seedUsed i = some after ∧
      IsSeedUsed seedUsed j = some before ∧
      IsSeedUsed after j = some (decide (j = i) || before) ∧
      after.length = seedUsed.length ∧
      SetSeedUsed after i = some after := by
  obtain ⟨n, rfl⟩ := Int.eq_ofNat_of_zero_le hi
  obtain ⟨m, rfl⟩ := Int.eq_ofNat_of_zero_le hj
  obtain ⟨after, before, h1, h2, h3, h4, h5⟩ :=
    seedUsed_set_test_natCast seedUsed n m (by omega) (by omega)
  refine ⟨after, before, h1, h2, ?_, h4, h5⟩
  rw [h3]
  simp only [Int.natCast_inj]

/-- Claim C5 on the two-byte bitmap `[0, 129]` with `i = 9` and `j = 15`. -/
theorem seedUsed_set_then_test_witness :
    ∃ after before, SetSeedUsed [0, 129] 9 = some after ∧
      IsSeedUsed [0, 129] 15 = some before ∧
      IsSeedUsed after 15 = some (decide ((15 : Int) = 9) || before) ∧
      after.length = [0, 129].length ∧
      SetSeedUsed after 9 = some after :=
  seedUsed_set_then_test [0, 129] 9 15 (by decide) (by decide) (by decide) (by decide)

/-! ## The bucket lists -/

/-- The traversal of a well-formed list returns its entries, given fuel for each of them. -/
theorem Chain.scoreListFrom_eq {pool : List ScoringCandidate} {head : Option Nat}
    {l : List (Nat × ScoringCandidate)} (h : Chain pool head l) :
    ∀ fuel, l.length ≤ fuel → scoreListFrom pool fuel head = some (l.map Prod.snd) := by
  induction h with
  | nil => intro fuel _; cases fuel <;> rfl
  | cons hget _ ih =>
    intro fuel hfuel
    cases fuel with
    | zero => simp at hfuel
    | succ fuel =>
      have hrest := ih fuel (by simpa using hfuel)
      simp [scoreListFrom, hget, hrest]

/-- Writing a pool entry that is not on a list leaves the list as it is. -/
theorem Chain.set_of_ne {pool : List ScoringCandidate} {head : Option Nat}
    {l : List (Nat × ScoringCandidate)} (h : Chain pool head l) (n : Nat)
    (entry : ScoringCandidate) (hne : ∀ x ∈ l, x.1 ≠ n) : Chain (pool.set n entry) head l := by
  induction h with
  | nil => exact Chain.nil
  | cons hget _ ih =>
    refine Chain.cons ?_ (ih fun x hx => hne x (List.mem_cons_of_mem _ hx))
    have hin : n ≠ _ := fun e => hne _ (List.mem_cons_self _ _) e.symm
    rw [List.getElem?_set_ne hin]
    exact hget

theorem PoolsAfter.reset (pool : List ScoringCandidate) (nBuckets : Nat) :
    PoolsAfter (resetPools pool nBuckets) [] := by
  refine ⟨rfl, Nat.zero_le _, fun b head hb => ?_⟩
  have hnone : head = none := by
    simp only [resetPools] at hb
    rw [List.getElem?_replicate] at hb
    split at hb
    · exact (Option.some.inj hb).symm
    · cases hb
  subst hnone
  exact ⟨[], Chain.nil, by simp, by simp⟩

/-- Adding one candidate keeps the invariant and the sizes of the pool and of the bucket array. -/
theorem PoolsAfter.add {p : CandidatePools} {hist : List CandidateArgs}
    (h : PoolsAfter p hist) (a : CandidateArgs) (hset : a.whichSetPair < NUM_SET_PAIRS)
    (hbucket : a.bestPossibleScore < p.scoringCandidates.length)
    (hfree : hist.length < p.scoringCandidatePool.length) :
    ∃ q, addScoringCandidate p a = some q ∧ PoolsAfter q (hist ++ [a]) ∧
      q.scoringCandidatePool.length = p.scoringCandidatePool.length ∧
      q.scoringCandidates.length = p.scoringCandidates.length := by
  obtain ⟨hlow, _, hchains⟩ := h
  obtain ⟨entry, hentry⟩ : ∃ e, p.scoringCandidatePool[p.lowestFreeScoringCandidatePoolEntry]?
      = some e := ⟨_, List.getElem?_eq_getElem (by rw [hlow]; exact hfree)⟩
  obtain ⟨head, hhead⟩ : ∃ e, p.scoringCandidates[a.bestPossibleScore]? = some e :=
    ⟨_, List.getElem?_eq_getElem hbucket⟩
  apply Exists.intro
  refine And.intro ?hadd (And.intro ?hafter ?hlen)
  case hadd =>
    simp only [addScoringCandidate, hentry, hhead, ScoringCandidate.init, hset, if_true]
    rfl
  case hlen => simp
  refine ⟨by simp [hlow], ?_, fun b head1 hb => ?_⟩
  · simp only [List.length_set, List.length_append, List.length_singleton]
    omega
  simp only at hb ⊢
  have hpos : p.lowestFreeScoringCandidatePoolEntry < p.scoringCandidatePool.length := by
    rw [hlow]; exact hfree
  by_cases hab : a.bestPossibleScore = b
  · subst hab
    rw [List.getElem?_set_self hbucket] at hb
    obtain ⟨l, hl, hlt, hmap⟩ := hchains _ head hhead
    have hhd : head1 = some p.lowestFreeScoringCandidatePoolEntry := (Option.some.inj hb).symm
    subst hhd
    refine ⟨(p.lowestFreeScoringCandidatePoolEntry, _) :: l,
      Chain.cons (List.getElem?_set_self hpos)
        (hl.set_of_ne _ _ fun x hx => Nat.ne_of_lt (hlt x hx)), ?_, ?_⟩
    · intro x hx
      rcases List.mem_cons.1 hx with rfl | hx
      · exact Nat.lt_succ_self _
      · exact Nat.lt_succ_of_lt (hlt x hx)
    · show ScoringCandidate.args _ :: l.map (fun x => x.2.args) = _
      rw [hmap, List.filter_append, List.reverse_append]
      simp [ScoringCandidate.args]
  · rw [List.getElem?_set_ne hab] at hb
    obtain ⟨l, hl, hlt, hmap⟩ := hchains b head1 hb
    refine ⟨l, hl.set_of_ne _ _ fun x hx => Nat.ne_of_lt (hlt x hx),
      fun x hx => Nat.lt_succ_of_lt (hlt x hx), ?_⟩
    simp [hmap, List.filter_append, hab]

theorem PoolsAfter.addAll (ins : List CandidateArgs) :
    ∀ (p : CandidatePools) (hist : List CandidateArgs), PoolsAfter p hist →
      hist.length + ins.length ≤ p.scoringCandidatePool.length →
      (∀ a ∈ ins, a.whichSetPair < NUM_SET_PAIRS ∧
        a.bestPossibleScore < p.scoringCandidates.length) →
      ∃ q, addScoringCandidates p ins = some q ∧ PoolsAfter q (hist ++ ins) ∧
        q.scoringCandidatePool.length = p.scoringCandidatePool.length ∧
        q.scoringCandidates.length = p.scoringCandidates.length := by
  induction ins with
  | nil =>
    intro p hist h _ _
    exact ⟨p, rfl, by simpa using h, rfl, rfl⟩
  | cons a rest ih =>
    intro p hist h hlen hargs
    have ha := hargs a (List.mem_cons_self _ _)
    obtain ⟨q, hq, hwf, hpl, hbl⟩ := h.add a ha.1 ha.2 (by simp at hlen; omega)
    obtain ⟨r, hr, hwf2, hpl2, hbl2⟩ := ih q (hist ++ [a]) hwf
      (by simp at hlen ⊢; omega)
      (fun x hx => by rw [hbl]; exact hargs x (List.mem_cons_of_mem _ hx))
    refine ⟨r, by simp only [addScoringCandidates, hq, hr], ?_, hpl2.trans hpl, hbl2.trans hbl⟩
    simpa using hwf2

/-- Claim C6, amended. Candidates added to the reset pools (each with a valid set pair and a
`bestPossibleScore` inside the bucket array, and no more of them than the pool holds) are all
accepted, and following `scoreListNext` from the head of bucket `b` ends and visits the
candidates of that bucket in the reverse of the order in which they were inserted, the most
recent first; when the candidates were inserted in strictly descending genome location the
bucket is visited in strictly ascending genome location. -/
theorem bucket_order_reverses_insertion (pool : List ScoringCandidate) (nBuckets : Nat)
    (inserted : List CandidateArgs) (b : Nat)
    (hpool : inserted.length ≤ pool.length)
    (hargs : ∀ a ∈ inserted, a.whichSetPair < NUM_SET_PAIRS ∧ a.bestPossibleScore < nBuckets)
    (hb : b < nBuckets) :
    ∃ q visited, addScoringCandidates (resetPools pool nBuckets) inserted = some q ∧
      bucketOrder q b = some visited ∧
      visited.map ScoringCandidate.args
        = (inserted.filter (fun a => a.bestPossibleScore = b)).reverse ∧
      ((inserted.map (fun a => a.readWithFewerHitsGenomeLocation)).Pairwise (· > ·) →
        (visited.map (fun c => c.readWithFewerHitsGenomeLocation)).Pairwise (· < ·)) := by
  obtain ⟨q, hq, hwf, hpl, hbl⟩ := PoolsAfter.addAll inserted (resetPools pool nBuckets) []
    (PoolsAfter.reset pool nBuckets) (by simpa [resetPools] using hpool)
    (by simpa [resetPools] using hargs)
  obtain ⟨hlow, hle, hchains⟩ := hwf
  have hbq : b < q.scoringCandidates.length := by rw [hbl]; simpa [resetPools] using hb
  obtain ⟨head, hhead⟩ : ∃ e, q.scoringCandidates[b]? = some e :=
    ⟨_, List.getElem?_eq_getElem hbq⟩
  obtain ⟨l, hl, _, hmap⟩ := hchains b head hhead
  have hlen : l.length ≤ q.scoringCandidatePool.length := by
    have h1 : l.length = ((([] : List CandidateArgs) ++ inserted).filter
        (fun a => a.bestPossibleScore = b)).reverse.length := by
      rw [← hmap, List.length_map]
    rw [h1, List.length_reverse]
    exact (List.length_filter_le _ _).trans hle
  have hargsEq : (l.map Prod.snd).map ScoringCandidate.args
      = (inserted.filter (fun a => a.bestPossibleScore = b)).reverse := by
    rw [List.map_map]
    simpa using hmap
  refine ⟨q, l.map Prod.snd, hq, ?_, hargsEq, fun hdesc => ?_⟩
  · simp only [bucketOrder, hhead]
    exact hl.scoreListFrom_eq _ hlen
  · have hloc : (l.map Prod.snd).map (fun c => c.readWithFewerHitsGenomeLocation)
        = ((inserted.filter (fun a => a.bestPossibleScore = b)).map
            (fun a => a.readWithFewerHitsGenomeLocation)).reverse := by
      have h := congrArg (List.map (fun a : CandidateArgs => a.readWithFewerHitsGenomeLocation))
        hargsEq
      rw [List.map_reverse] at h
      rw [← h]
      simp only [List.map_map]
      rfl
    rw [hloc, List.pairwise_reverse]
    have hsub : ((inserted.filter (fun a => a.bestPossibleScore = b)).map
        (fun a => a.readWithFewerHitsGenomeLocation)).Sublist
        (inserted.map (fun a => a.readWithFewerHitsGenomeLocation)) :=
      (List.filter_sublist _).map _
    exact (hdesc.sublist hsub).imp (fun h => h)

/-- Claim C6, amended, on a pool of four entries and `threeCandidates`, bucket 1. -/
theorem bucket_order_reverses_insertion_witness :
    ∃ q visited,
      addScoringCandidates (resetPools [blankEntry, blankEntry, blankEntry, blankEntry] 2)
        threeCandidates = some q ∧
      bucketOrder q 1 = some visited ∧
      visited.map ScoringCandidate.args
        = (threeCandidates.filter (fun a => a.bestPossibleScore = 1)).reverse ∧
      ((threeCandidates.map (fun a => a.readWithFewerHitsGenomeLocation)).Pairwise (· > ·) →
        (visited.map (fun c => c.readWithFewerHitsGenomeLocation)).Pairwise (· < ·)) :=
  bucket_order_reverses_insertion [blankEntry, blankEntry, blankEntry, blankEntry] 2
    threeCandidates 1 (by decide) (by decide) (by decide)

/-- Claim C6, as stated, fails: after inserting `threeCandidates` (locations 450, 300, 100 in
this order) the traversal of bucket 1 from its head visits location 100 first and 450 second,
not the order of insertion 450, 100. -/
theorem bucket_order_is_not_insertion_order :
    ((addScoringCandidates (resetPools [blankEntry, blankEntry, blankEntry, blankEntry] 2)
        threeCandidates).bind (fun q => bucketOrder q 1)).map
      (List.map (fun c => c.readWithFewerHitsGenomeLocation)) = some [100, 450] ∧
    ((addScoringCandidates (resetPools [blankEntry, blankEntry, blankEntry, blankEntry] 2)
        threeCandidates).bind (fun q => bucketOrder q 1)).map (List.map ScoringCandidate.args)
      ≠ some (threeCandidates.filter (fun a => a.bestPossibleScore = 1)) := by
  decide

/-! ## Initialisation of a candidate and of a merge anchor -/

/-- Claim C13. For every pool entry and all arguments with `whichSetPair < 2`,
`ScoringCandidate::init` succeeds and yields a candidate with `mergeAnchor` null whose
`readWithFewerHitsGenomeLocation`, `whichSetPair`, `scoringMateCandidateIndex`, `seedOffset`,
`bestPossibleScore`, `scoreListNext` and `clusterIdx` are the arguments (so the cluster tag
of the caller, a cluster index or `UNLINKED_ID`, is the tag carried); the two fields `init`
does not assign keep the values of the entry. -/
theorem init_candidate_records_arguments (entry : ScoringCandidate)
    (readWithFewerHitsGenomeLocation : Int)
    (whichSetPair scoringMateCandidateIndex seedOffset bestPossibleScore : Nat)
    (scoreListNext : Option Nat) (clusterIdx : Int) (hset : whichSetPair < 2) :
    ∃ candidate,
      entry.init readWithFewerHitsGenomeLocation whichSetPair scoringMateCandidateIndex
        seedOffset bestPossibleScore scoreListNext clusterIdx = some candidate ∧
      candidate.mergeAnchor = none ∧
      candidate.readWithFewerHitsGenomeLocation = readWithFewerHitsGenomeLocation ∧
      candidate.whichSetPair = whichSetPair ∧
      candidate.scoringMateCandidateIndex = scoringMateCandidateIndex ∧
      candidate.seedOffset = seedOffset ∧
      candidate.bestPossibleScore = bestPossibleScore ∧
      candidate.scoreListNext = scoreListNext ∧
      candidate.clusterIdx = clusterIdx ∧
      (clusterIdx = UNLINKED_ID → candidate.clusterIdx = UNLINKED_ID) ∧
      candidate.fewerEndGenomeLocationOffset = entry.fewerEndGenomeLocationOffset ∧
      candidate.fewerEndScore = entry.fewerEndScore := by
  have hset2 : whichSetPair < NUM_SET_PAIRS := hset
  simp only [ScoringCandidate.init, hset2, if_true]
  exact ⟨_, rfl, rfl, rfl, rfl, rfl, rfl, rfl, rfl, rfl, fun h => h, rfl, rfl⟩

/-- Claim C13 on a used pool entry (claimed by anchor 3, tagged with cluster 9), initialised
at location 450 for set pair 1 with the tag `UNLINKED_ID` and the list head 2. -/
theorem init_candidate_records_arguments_witness :
    ∃ candidate,
      ScoringCandidate.init ⟨some 5, some 3, 8, 77, -1, 0, 6, 2, 4, 9⟩ 450 1 12 16 3 (some 2)
        UNLINKED_ID = some candidate ∧
      candidate.mergeAnchor = none ∧
      candidate.readWithFewerHitsGenomeLocation = 450 ∧
      candidate.whichSetPair = 1 ∧
      candidate.scoringMateCandidateIndex = 12 ∧
      candidate.seedOffset = 16 ∧
      candidate.bestPossibleScore = 3 ∧
      candidate.scoreListNext = some 2 ∧
      candidate.clusterIdx = UNLINKED_ID ∧
      (UNLINKED_ID = UNLINKED_ID → candidate.clusterIdx = UNLINKED_ID) ∧
      candidate.fewerEndGenomeLocationOffset = -1 ∧
      candidate.fewerEndScore = 4 :=
  init_candidate_records_arguments ⟨some 5, some 3, 8, 77, -1, 0, 6, 2, 4, 9⟩ 450 1 12 16 3
    (some 2) UNLINKED_ID (by decide)

/-- Claim C14. After `MergeAnchor::init(m, f, p, s, c, cand, mate)`, whatever the anchor held
before, it stores the two locations, the probability, the pair score, the cluster tag and the
two back-pointers it was given, `resultPtr` is null, and `doesRangeMatch(m, f)` is true. -/
theorem init_anchor_records_pair (entry : MergeAnchor) (m f : Int) (p : Float) (s c : Int)
    (cand mate : Option Nat) :
    (entry.init m f p s c cand mate).locationForReadWithMoreHits = m ∧
    (entry.init m f p s c cand mate).locationForReadWithFewerHits = f ∧
    (entry.init m f p s c cand mate).matchProbability = p ∧
    (entry.init m f p s c cand mate).pairScore = s ∧
    (entry.init m f p s c cand mate).clusterIdx = c ∧
    (entry.init m f p s c cand mate).candidate = cand ∧
    (entry.init m f p s c cand mate).mate = mate ∧
    (entry.init m f p s c cand mate).resultPtr = none ∧
    (entry.init m f p s c cand mate).doesRangeMatch m f = true := by
  refine ⟨rfl, rfl, rfl, rfl, rfl, rfl, rfl, rfl, ?_⟩
  rw [doesRangeMatch_eq_true_iff]
  show |m - m| < 50 ∧ |f - f| < 50
  simp

end TenXSingleAligner

namespace SummarizeReads

/-! ## The values `main` reports -/

theorem wrapInt64_eq_self {x : Int} (h0 : 0 ≤ x) (h1 : x < 2 ^ 63) : wrapInt64 x = x := by
  unfold wrapInt64
  omega

theorem wrapInt32_eq_self {x : Int} (h0 : 0 ≤ x) (h1 : x < 2 ^ 31) : wrapInt32 x = x := by
  unfold wrapInt32
  omega

theorem foldl_proj {α β γ : Type} (f : α → β → α) (proj : α → γ) (g : γ → β → γ)
    (h : ∀ a b, proj (f a b) = g (proj a) b) (l : List β) :
    ∀ a, proj (l.foldl f a) = l.foldl g (proj a) := by
  induction l with
  | nil => intro a; rfl
  | cons b l ih => intro a; simp only [List.foldl_cons, ih, h]

theorem foldl_wrapInt64_add {β : Type} (f : β → Int) (l : List β) (hf : ∀ b ∈ l, 0 ≤ f b) :
    ∀ a : Int, 0 ≤ a → a + (l.map f).sum < 2 ^ 63 →
      l.foldl (fun acc b => wrapInt64 (acc + f b)) a = a + (l.map f).sum := by
  induction l with
  | nil => intro a _ _; simp
  | cons b l ih =>
    intro a ha hsum
    have hb := hf b (List.mem_cons_self _ _)
    have hl : 0 ≤ (l.map f).sum :=
      List.sum_nonneg (by
        intro x hx
        obtain ⟨y, hy, rfl⟩ := List.mem_map.1 hx
        exact hf y (List.mem_cons_of_mem _ hy))
    simp only [List.map_cons, List.sum_cons] at hsum
    have hw : wrapInt64 (a + f b) = a + f b := wrapInt64_eq_self (by omega) (by omega)
    simp only [List.foldl_cons, List.map_cons, List.sum_cons, hw]
    rw [ih (fun x hx => hf x (List.mem_cons_of_mem _ hx)) (a + f b) (by omega) (by omega)]
    omega

theorem countGoodBases_foldl (BASE_VALUE : Nat → Nat) (data : List Nat) :
    ∀ acc : Int, 0 ≤ acc → acc + data.length < 2 ^ 31 →
      data.foldl (fun nGoodBases base =>
        if BASE_VALUE base != 4 then wrapInt32 (nGoodBases + 1) else nGoodBases) acc
        = acc + ((data.filter (fun base => BASE_VALUE base ≠ 4)).length : Nat) := by
  induction data with
  | nil => intro acc _ _; simp
  | cons base data ih =>
    intro acc h0 h1
    simp only [List.length_cons, Nat.cast_add, Nat.cast_one] at h1
    by_cases hb : BASE_VALUE base = 4
    · simp only [List.foldl_cons, hb, bne_self_eq_false, Bool.false_eq_true, if_false]
      rw [ih acc h0 (by omega)]
      simp [List.filter_cons, hb]
    · have hw : wrapInt32 (acc + 1) = acc + 1 := wrapInt32_eq_self (by omega) (by omega)
      have hbne : (BASE_VALUE base != 4) = true := by simpa using hb
      simp only [List.foldl_cons, hbne, if_true, hw]
      rw [ih (acc + 1) (by omega) (by omega)]
      simp [List.filter_cons, hb]
      omega

/-- The `int` counter of the good-base loop holds the number of non-N bases when the read has
fewer than `2 ^ 31` bases. -/
theorem countGoodBases_eq (BASE_VALUE : Nat → Nat) (read : Read)
    (h : read.getDataLength < 2 ^ 31) :
    countGoodBases BASE_VALUE read.data = (read.goodBases BASE_VALUE : Int) := by
  have h1 : (0 : Int) + read.data.length < 2 ^ 31 := by
    unfold Read.getDataLength at h
    have : ((read.data.length : Nat) : Int) < 2 ^ 31 := by exact_mod_cast h
    omega
  have := countGoodBases_foldl BASE_VALUE read.data 0 (le_refl _) h1
  simpa [countGoodBases, Read.goodBases] using this

theorem goodBases_le_length (BASE_VALUE : Nat → Nat) (read : Read) :
    read.goodBases BASE_VALUE ≤ read.getDataLength :=
  List.length_filter_le _ _

theorem __max_eq_max (b a : Int) : __max b a = max a b := by
  unfold __max
  split <;> omega

theorem __min_eq_min (b a : Int) : __min b a = min a b := by
  unfold __min
  split <;> omega

theorem le_foldl_max (xs : List Int) : ∀ a : Int, a ≤ xs.foldl max a := by
  induction xs with
  | nil => intro a; exact le_refl a
  | cons x xs ih => intro a; exact le_trans (le_max_left a x) (ih (max a x))

theorem foldl_max_of_le (xs : List Int) :
    ∀ a b : Int, b ≤ a → xs.foldl max a = max a (xs.foldl max b) := by
  induction xs with
  | nil => intro a b h; simp [h]
  | cons x xs ih =>
    intro a b h
    simp only [List.foldl_cons]
    rw [ih (max a x) (max b x) (max_le_max_right x h)]
    have h1 := le_foldl_max xs (max b x)
    have h2 : x ≤ max b x := le_max_right b x
    omega

theorem foldl_max_mono {β : Type} (f g : β → Int) (l : List β) (h : ∀ r ∈ l, f r ≤ g r) :
    ∀ a b : Int, a ≤ b → (l.map f).foldl max a ≤ (l.map g).foldl max b := by
  induction l with
  | nil => intro a b hab; simpa using hab
  | cons r l ih =>
    intro a b hab
    simp only [List.map_cons, List.foldl_cons]
    exact ih (fun x hx => h x (List.mem_cons_of_mem _ hx)) _ _
      (max_le_max hab (h r (List.mem_cons_self _ _)))

theorem foldl___max {β : Type} (f : β → Int) (l : List β) :
    ∀ a : Int, l.foldl (fun acc r => __max (f r) acc) a = (l.map f).foldl max a := by
  induction l with
  | nil => intro a; rfl
  | cons r l ih =>
    intro a
    simp only [List.foldl_cons, List.map_cons]
    rw [ih, __max_eq_max]

/-- A sum accumulated per thread and then across threads, each addition reduced to `_int64`,
is the sum over all reads when that sum is in range. -/
theorem twoLevel_sum {β : Type} (f : β → Int) (ls : List (List β))
    (hf : ∀ r ∈ ls.flatten, 0 ≤ f r) :
    ∀ a : Int, 0 ≤ a → a + (ls.flatten.map f).sum < 2 ^ 63 →
      ls.foldl (fun acc l =>
        wrapInt64 (acc + l.foldl (fun x r => wrapInt64 (x + f r)) 0)) a
        = a + (ls.flatten.map f).sum := by
  induction ls with
  | nil => intro a _ _; simp
  | cons l ls ih =>
    intro a ha hsum
    simp only [List.flatten_cons, List.map_append, List.sum_append] at hsum
    have hfl : ∀ r ∈ l, 0 ≤ f r := fun r hr =>
      hf r (by simp only [List.flatten_cons, List.mem_append]; exact Or.inl hr)
    have hfls : ∀ r ∈ ls.flatten, 0 ≤ f r := fun r hr =>
      hf r (by simp only [List.flatten_cons, List.mem_append]; exact Or.inr hr)
    have hl : 0 ≤ (l.map f).sum :=
      List.sum_nonneg (by
        intro x hx
        obtain ⟨y, hy, rfl⟩ := List.mem_map.1 hx
        exact hfl y hy)
    have hls : 0 ≤ (ls.flatten.map f).sum :=
      List.sum_nonneg (by
        intro x hx
        obtain ⟨y, hy, rfl⟩ := List.mem_map.1 hx
        exact hfls y hy)
    have hinner := foldl_wrapInt64_add f l hfl 0 (le_refl _) (by omega)
    have hw : wrapInt64 (a + (0 + (l.map f).sum)) = a + (l.map f).sum := by
      rw [wrapInt64_eq_self (by omega) (by omega)]
      omega
    simp only [List.foldl_cons, hinner, hw, List.flatten_cons, List.map_append, List.sum_append]
    rw [ih hfls _ (by omega) (by omega)]
    omega

/-- A maximum taken per thread and then across threads, both starting from 0, is the maximum
over all reads. -/
theorem twoLevel_max {β : Type} (f : β → Int) (ls : List (List β)) :
    ∀ a : Int, 0 ≤ a →
      ls.foldl (fun acc l => __max (l.foldl (fun x r => __max (f r) x) 0) acc) a
        = (ls.flatten.map f).foldl max a := by
  induction ls with
  | nil => intro a _; rfl
  | cons l ls ih =>
    intro a ha
    have hstep : __max (l.foldl (fun x r => __max (f r) x) 0) a = (l.map f).foldl max a := by
      rw [__max_eq_max, foldl___max, ← foldl_max_of_le _ a 0 ha]
    simp only [List.foldl_cons, hstep, List.flatten_cons, List.map_append, List.foldl_append]
    exact ih _ (le_trans ha (le_foldl_max _ a))

/-- The `while` loop of a worker processes exactly the first
`max 1 (nReadsPerThread - totalReads)` reads of its supplier, as long as the read counter stays
in the range of `_int64`. -/
theorem workerLoop_eq_foldl (BASE_VALUE : Nat → Nat) (nReadsPerThread : Int)
    (supplier : List Read) :
    ∀ context : ThreadContext, 0 ≤ context.totalReads →
      (context.totalReads = 0 ∨ context.totalReads < nReadsPerThread) →
      context.totalReads
        + ((supplier.take (max 1 (nReadsPerThread - context.totalReads)).toNat).length : Nat)
          < 2 ^ 63 →
      workerLoop BASE_VALUE nReadsPerThread context supplier
        = (supplier.take (max 1 (nReadsPerThread - context.totalReads)).toNat).foldl
            (processRead BASE_VALUE) context := by
  induction supplier with
  | nil => intro context _ _ _; simp [workerLoop]
  | cons read supplier ih =>
    intro context h0 hk hrange
    obtain ⟨q, hq⟩ : ∃ q : Nat, (max 1 (nReadsPerThread - context.totalReads)).toNat = q + 1 :=
      ⟨(max 1 (nReadsPerThread - context.totalReads)).toNat - 1, by omega⟩
    rw [hq, List.take_succ_cons] at hrange ⊢
    simp only [List.length_cons, Nat.cast_add, Nat.cast_one] at hrange
    have hcount : (processRead BASE_VALUE context read).totalReads = context.totalReads + 1 := by
      show wrapInt64 (context.totalReads + 1) = context.totalReads + 1
      exact wrapInt64_eq_self (by omega) (by omega)
    simp only [workerLoop, List.foldl_cons]
    by_cases hstop : (processRead BASE_VALUE context read).totalReads ≥ nReadsPerThread
    · have hq0 : q = 0 := by omega
      simp [hstop, hq0]
    · have hnext : (max 1 (nReadsPerThread
          - (processRead BASE_VALUE context read).totalReads)).toNat = q := by omega
      rw [if_neg hstop, ih (processRead BASE_VALUE context read) (by omega)
        (Or.inr (by omega)) (by rw [hnext, hcount]; omega), hnext]

/-- A worker's context is the fold of `processRead` over the reads it samples. -/
theorem WorkerThreadMain_eq_foldl (BASE_VALUE : Nat → Nat) (nReadsPerThread : Int)
    (supplier : List Read) (h : (sampledBy nReadsPerThread supplier).length < 2 ^ 63) :
    WorkerThreadMain BASE_VALUE nReadsPerThread supplier
      = (sampledBy nReadsPerThread supplier).foldl (processRead BASE_VALUE) initialContext := by
  have h2 : (((sampledBy nReadsPerThread supplier).length : Nat) : Int) < 2 ^ 63 := by
    exact_mod_cast h
  have := workerLoop_eq_foldl BASE_VALUE nReadsPerThread supplier initialContext (le_refl _)
    (Or.inl rfl) (by
      simp only [initialContext, sub_zero, zero_add]
      exact h2)
  simpa [WorkerThreadMain, sampledBy, initialContext] using this

theorem length_le_length_flatten {β : Type} (ls : List (List β)) (l : List β) (h : l ∈ ls) :
    l.length ≤ ls.flatten.length := by
  induction ls with
  | nil => cases h
  | cons l1 ls ih =>
    simp only [List.flatten_cons, List.length_append]
    rcases List.mem_cons.1 h with rfl | h
    · omega
    · have := ih h
      omega

/-- The reported values are the sum, by `addContext`, of the workers' folds over their sampled
reads. -/
theorem reported_eq_foldl (BASE_VALUE : Nat → Nat) (nReadsPerThread : Int)
    (suppliers : List (List Read)) (hcount : (sampled nReadsPerThread suppliers).length < 2 ^ 63) :
    reported BASE_VALUE nReadsPerThread suppliers
      = ((suppliers.map (sampledBy nReadsPerThread)).map
          (fun l => l.foldl (processRead BASE_VALUE) initialContext)).foldl
            addContext initialTotals := by
  unfold reported
  congr 1
  rw [List.map_map]
  apply List.map_congr_left
  intro supplier hs
  apply WorkerThreadMain_eq_foldl
  have hmem : sampledBy nReadsPerThread supplier ∈ suppliers.map (sampledBy nReadsPerThread) :=
    List.mem_map_of_mem _ hs
  exact lt_of_le_of_lt (length_le_length_flatten _ _ hmem) hcount

theorem reported_sum_field (BASE_VALUE : Nat → Nat) (proj : ThreadContext → Int)
    (f : Read → Int)
    (hP : ∀ c r, proj (processRead BASE_VALUE c r) = wrapInt64 (proj c + f r))
    (hA : ∀ t c, proj (addContext t c) = wrapInt64 (proj t + proj c))
    (h0 : proj initialContext = 0) (h1 : proj initialTotals = 0)
    (ls : List (List Read)) (hf : ∀ r ∈ ls.flatten, 0 ≤ f r)
    (hrange : (ls.flatten.map f).sum < 2 ^ 63) :
    proj ((ls.map (fun l => l.foldl (processRead BASE_VALUE) initialContext)).foldl
      addContext initialTotals) = (ls.flatten.map f).sum := by
  have inner : ∀ l : List Read, proj (l.foldl (processRead BASE_VALUE) initialContext)
      = l.foldl (fun x r => wrapInt64 (x + f r)) 0 := by
    intro l
    rw [foldl_proj _ proj (fun x r => wrapInt64 (x + f r)) hP, h0]
  rw [foldl_proj addContext proj (fun x c => wrapInt64 (x + proj c)) hA, List.foldl_map, h1]
  simp only [inner]
  have h := twoLevel_sum f ls hf 0 (le_refl _) (by omega)
  rw [h]
  omega

theorem reported_max_field (BASE_VALUE : Nat → Nat) (proj : ThreadContext → Int)
    (f : Read → Int)
    (hP : ∀ c r, proj (processRead BASE_VALUE c r) = __max (f r) (proj c))
    (hA : ∀ t c, proj (addContext t c) = __max (proj c) (proj t))
    (h0 : proj initialContext = 0) (h1 : proj initialTotals = 0)
    (ls : List (List Read)) :
    proj ((ls.map (fun l => l.foldl (processRead BASE_VALUE) initialContext)).foldl
      addContext initialTotals) = (ls.flatten.map f).foldl max 0 := by
  have inner : ∀ l : List Read, proj (l.foldl (processRead BASE_VALUE) initialContext)
      = l.foldl (fun x r => __max (f r) x) 0 := by
    intro l
    rw [foldl_proj _ proj (fun x r => __max (f r) x) hP, h0]
  rw [foldl_proj addContext proj (fun x c => __max (proj c) x) hA, List.foldl_map, h1]
  simp only [inner]
  exact twoLevel_max f ls 0 (le_refl _)

theorem or_flag_step (a : Bool) (flags : Nat) :
    ((a.toNat ||| (flags &&& SAM_MULTI_SEGMENT)) != 0)
      = (a || ((flags &&& SAM_MULTI_SEGMENT) != 0)) := by
  have hm : flags &&& SAM_MULTI_SEGMENT = flags % 2 := Nat.and_one_is_mod flags
  rw [hm]
  rcases Nat.mod_two_eq_zero_or_one flags with h | h <;> rw [h] <;> cases a <;> decide

theorem and_flag_step (a : Bool) (flags : Nat) :
    ((a.toNat &&& (flags &&& SAM_MULTI_SEGMENT)) != 0)
      = (a && ((flags &&& SAM_MULTI_SEGMENT) != 0)) := by
  have hm : flags &&& SAM_MULTI_SEGMENT = flags % 2 := Nat.and_one_is_mod flags
  rw [hm]
  rcases Nat.mod_two_eq_zero_or_one flags with h | h <;> rw [h] <;> cases a <;> decide

theorem or_bool_step (a b : Bool) : ((a.toNat ||| b.toNat) != 0) = (a || b) := by
  cases a <;> cases b <;> decide

theorem and_bool_step (a b : Bool) : ((a.toNat &&& b.toNat) != 0) = (a && b) := by
  cases a <;> cases b <;> decide

theorem foldl_or_eq_any {β : Type} (p : β → Bool) (l : List β) :
    ∀ a : Bool, l.foldl (fun x r => x || p r) a = (a || l.any p) := by
  induction l with
  | nil => intro a; simp
  | cons r l ih => intro a; simp only [List.foldl_cons, ih, List.any_cons, Bool.or_assoc]

theorem foldl_and_eq_all {β : Type} (p : β → Bool) (l : List β) :
    ∀ a : Bool, l.foldl (fun x r => x && p r) a = (a && l.all p) := by
  induction l with
  | nil => intro a; simp
  | cons r l ih => intro a; simp only [List.foldl_cons, ih, List.all_cons, Bool.and_assoc]

theorem twoLevel_any {β : Type} (p : β → Bool) (ls : List (List β)) :
    ∀ a : Bool, ls.foldl (fun acc l => acc || l.foldl (fun x r => x || p r) false) a
      = (a || ls.flatten.any p) := by
  induction ls with
  | nil => intro a; simp
  | cons l ls ih =>
    intro a
    simp only [List.foldl_cons]
    rw [ih, foldl_or_eq_any]
    simp only [List.flatten_cons, List.any_append, Bool.false_or, Bool.or_assoc]

theorem twoLevel_all {β : Type} (p : β → Bool) (ls : List (List β)) :
    ∀ a : Bool, ls.foldl (fun acc l => acc && l.foldl (fun x r => x && p r) true) a
      = (a && ls.flatten.all p) := by
  induction ls with
  | nil => intro a; simp
  | cons l ls ih =>
    intro a
    simp only [List.foldl_cons]
    rw [ih, foldl_and_eq_all]
    simp only [List.flatten_cons, List.all_append, Bool.true_and, Bool.and_assoc]

theorem reported_anyPaired_eq (BASE_VALUE : Nat → Nat) (ls : List (List Read)) :
    ((ls.map (fun l => l.foldl (processRead BASE_VALUE) initialContext)).foldl
      addContext initialTotals).anyPaired = ls.flatten.any Read.isPaired := by
  have inner : ∀ l : List Read, (l.foldl (processRead BASE_VALUE) initialContext).anyPaired
      = l.foldl (fun x r => x || r.isPaired) false := by
    intro l
    rw [foldl_proj _ ThreadContext.anyPaired (fun x r => x || r.isPaired)
      (fun c r => or_flag_step c.anyPaired r.originalSAMFlags)]
    rfl
  rw [foldl_proj addContext ThreadContext.anyPaired (fun x c => x || c.anyPaired)
    (fun t c => or_bool_step t.anyPaired c.anyPaired), List.foldl_map]
  simp only [inner]
  rw [twoLevel_any]
  rfl

theorem reported_allPaired_eq (BASE_VALUE : Nat → Nat) (ls : List (List Read)) :
    ((ls.map (fun l => l.foldl (processRead BASE_VALUE) initialContext)).foldl
      addContext initialTotals).allPaired = ls.flatten.all Read.isPaired := by
  have inner : ∀ l : List Read, (l.foldl (processRead BASE_VALUE) initialContext).allPaired
      = l.foldl (fun x r => x && r.isPaired) true := by
    intro l
    rw [foldl_proj _ ThreadContext.allPaired (fun x r => x && r.isPaired)
      (fun c r => and_flag_step c.allPaired r.originalSAMFlags)]
    rfl
  rw [foldl_proj addContext ThreadContext.allPaired (fun x c => x && c.allPaired)
    (fun t c => and_bool_step t.allPaired c.allPaired), List.foldl_map]
  simp only [inner]
  rw [twoLevel_all]
  rfl

theorem sum_map_one {β : Type} (l : List β) : (l.map (fun _ => (1 : Int))).sum = l.length := by
  induction l with
  | nil => rfl
  | cons r l ih =>
    simp only [List.map_cons, List.sum_cons, ih, List.length_cons, Nat.cast_add, Nat.cast_one]
    omega

/-- Claim C9. When every sampled read has fewer than `2 ^ 31` bases and the number of sampled
reads and the sum of their lengths are below `2 ^ 63` (the ranges of the `int` and `_int64`
counters), the reported `totalReads`, `maxReadLength` and `totalReadLength` are the count, the
maximum and the sum of the data lengths of the sampled reads, the reported `maxGoodBases` and
`totalGoodBases` are the maximum and the sum of their numbers of non-N bases, and so
`totalGoodBases ≤ totalReadLength` and `maxGoodBases ≤ maxReadLength`. -/
theorem reported_totals (BASE_VALUE : Nat → Nat) (nReadsPerThread : Int)
    (suppliers : List (List Read))
    (hbases : ∀ read ∈ sampled nReadsPerThread suppliers, read.getDataLength < 2 ^ 31)
    (hcount : (sampled nReadsPerThread suppliers).length < 2 ^ 63)
    (hlength : ((sampled nReadsPerThread suppliers).map
      (fun read => (read.getDataLength : Int))).sum < 2 ^ 63) :
    (reported BASE_VALUE nReadsPerThread suppliers).totalReads
      = (sampled nReadsPerThread suppliers).length ∧
    (reported BASE_VALUE nReadsPerThread suppliers).maxReadLength
      = ((sampled nReadsPerThread suppliers).map
          (fun read => (read.getDataLength : Int))).foldl max 0 ∧
    (reported BASE_VALUE nReadsPerThread suppliers).totalReadLength
      = ((sampled nReadsPerThread suppliers).map
          (fun read => (read.getDataLength : Int))).sum ∧
    (reported BASE_VALUE nReadsPerThread suppliers).maxGoodBases
      = ((sampled nReadsPerThread suppliers).map
          (fun read => (read.goodBases BASE_VALUE : Int))).foldl max 0 ∧
    (reported BASE_VALUE nReadsPerThread suppliers).totalGoodBases
      = ((sampled nReadsPerThread suppliers).map
          (fun read => (read.goodBases BASE_VALUE : Int))).sum ∧
    (reported BASE_VALUE nReadsPerThread suppliers).totalGoodBases
      ≤ (reported BASE_VALUE nReadsPerThread suppliers).totalReadLength ∧
    (reported BASE_VALUE nReadsPerThread suppliers).maxGoodBases
      ≤ (reported BASE_VALUE nReadsPerThread suppliers).maxReadLength := by
  have hgood : (sampled nReadsPerThread suppliers).map
      (fun read => countGoodBases BASE_VALUE read.data)
      = (sampled nReadsPerThread suppliers).map
          (fun read => (read.goodBases BASE_VALUE : Int)) :=
    List.map_congr_left fun read hr => countGoodBases_eq BASE_VALUE read (hbases read hr)
  have hle : ∀ read ∈ sampled nReadsPerThread suppliers,
      (read.goodBases BASE_VALUE : Int) ≤ (read.getDataLength : Int) := fun read _ => by
    exact_mod_cast goodBases_le_length BASE_VALUE read
  have hsumle := List.sum_le_sum hle
  have hcountInt : ((sampled nReadsPerThread suppliers).length : Int) < 2 ^ 63 := by
    exact_mod_cast hcount
  have h1 : (reported BASE_VALUE nReadsPerThread suppliers).totalReads
      = (sampled nReadsPerThread suppliers).length := by
    rw [reported_eq_foldl _ _ _ hcount, ← sum_map_one]
    exact reported_sum_field BASE_VALUE ThreadContext.totalReads (fun _ => 1)
      (fun _ _ => rfl) (fun _ _ => rfl) rfl rfl _ (fun _ _ => zero_le_one)
      (by rw [sum_map_one]; exact hcountInt)
  have h2 : (reported BASE_VALUE nReadsPerThread suppliers).maxReadLength
      = ((sampled nReadsPerThread suppliers).map
          (fun read => (read.getDataLength : Int))).foldl max 0 := by
    rw [reported_eq_foldl _ _ _ hcount]
    exact reported_max_field BASE_VALUE ThreadContext.maxReadLength
      (fun read => (read.getDataLength : Int)) (fun _ _ => rfl) (fun _ _ => rfl) rfl rfl _
  have h3 : (reported BASE_VALUE nReadsPerThread suppliers).totalReadLength
      = ((sampled nReadsPerThread suppliers).map
          (fun read => (read.getDataLength : Int))).sum := by
    rw [reported_eq_foldl _ _ _ hcount]
    exact reported_sum_field BASE_VALUE ThreadContext.totalReadLength
      (fun read => (read.getDataLength : Int)) (fun _ _ => rfl) (fun _ _ => rfl) rfl rfl _
      (fun _ _ => Int.natCast_nonneg _) hlength
  have h4 : (reported BASE_VALUE nReadsPerThread suppliers).maxGoodBases
      = ((sampled nReadsPerThread suppliers).map
          (fun read => (read.goodBases BASE_VALUE : Int))).foldl max 0 := by
    rw [reported_eq_foldl _ _ _ hcount, ← hgood]
    exact reported_max_field BASE_VALUE ThreadContext.maxGoodBases
      (fun read => countGoodBases BASE_VALUE read.data) (fun _ _ => rfl) (fun _ _ => rfl)
      rfl rfl _
  have h5 : (reported BASE_VALUE nReadsPerThread suppliers).totalGoodBases
      = ((sampled nReadsPerThread suppliers).map
          (fun read => (read.goodBases BASE_VALUE : Int))).sum := by
    rw [reported_eq_foldl _ _ _ hcount, ← hgood]
    refine reported_sum_field BASE_VALUE ThreadContext.totalGoodBases
      (fun read => countGoodBases BASE_VALUE read.data) (fun _ _ => rfl) (fun _ _ => rfl)
      rfl rfl _ (fun read hr => ?_) ?_
    · show 0 ≤ countGoodBases BASE_VALUE read.data
      rw [countGoodBases_eq BASE_VALUE read (hbases read hr)]
      exact Int.natCast_nonneg _
    · have hg : ((suppliers.map (sampledBy nReadsPerThread)).flatten.map
          (fun read => countGoodBases BASE_VALUE read.data)).sum
          = ((sampled nReadsPerThread suppliers).map
              (fun read => (read.goodBases BASE_VALUE : Int))).sum := by
        rw [← hgood]
        rfl
      rw [hg]
      omega
  refine ⟨h1, h2, h3, h4, h5, ?_, ?_⟩
  · rw [h5, h3]
    exact hsumle
  · rw [h4, h2]
    exact foldl_max_mono _ _ _ hle 0 0 (le_refl _)

/-- Claim C9 on `exampleSuppliers` with the quota 2 per thread. -/
theorem reported_totals_witness :
    (reported exampleBaseValue 2 exampleSuppliers).totalReads
      = (sampled 2 exampleSuppliers).length ∧
    (reported exampleBaseValue 2 exampleSuppliers).maxReadLength
      = ((sampled 2 exampleSuppliers).map
          (fun read => (read.getDataLength : Int))).foldl max 0 ∧
    (reported exampleBaseValue 2 exampleSuppliers).totalReadLength
      = ((sampled 2 exampleSuppliers).map (fun read => (read.getDataLength : Int))).sum ∧
    (reported exampleBaseValue 2 exampleSuppliers).maxGoodBases
      = ((sampled 2 exampleSuppliers).map
          (fun read => (read.goodBases exampleBaseValue : Int))).foldl max 0 ∧
    (reported exampleBaseValue 2 exampleSuppliers).totalGoodBases
      = ((sampled 2 exampleSuppliers).map
          (fun read => (read.goodBases exampleBaseValue : Int))).sum ∧
    (reported exampleBaseValue 2 exampleSuppliers).totalGoodBases
      ≤ (reported exampleBaseValue 2 exampleSuppliers).totalReadLength ∧
    (reported exampleBaseValue 2 exampleSuppliers).maxGoodBases
      ≤ (reported exampleBaseValue 2 exampleSuppliers).maxReadLength :=
  reported_totals exampleBaseValue 2 exampleSuppliers (by decide) (by decide) (by decide)

/-- Claim C10. When fewer than `2 ^ 63` reads are sampled, the reported `anyPaired` is true
exactly when some sampled read has the multi-segment flag (`SAM_MULTI_SEGMENT = 0x1`) set and
the reported `allPaired` exactly when every sampled read has it; so when at least one read
is sampled, `allPaired` implies `anyPaired`. -/
theorem reported_paired (BASE_VALUE : Nat → Nat) (nReadsPerThread : Int)
    (suppliers : List (List Read))
    (hcount : (sampled nReadsPerThread suppliers).length < 2 ^ 63) :
    SAM_MULTI_SEGMENT = 0x1 ∧
    ((reported BASE_VALUE nReadsPerThread suppliers).anyPaired = true ↔
      ∃ read ∈ sampled nReadsPerThread suppliers,
        read.originalSAMFlags &&& SAM_MULTI_SEGMENT ≠ 0) ∧
    ((reported BASE_VALUE nReadsPerThread suppliers).allPaired = true ↔
      ∀ read ∈ sampled nReadsPerThread suppliers,
        read.originalSAMFlags &&& SAM_MULTI_SEGMENT ≠ 0) ∧
    (sampled nReadsPerThread suppliers ≠ [] →
      (reported BASE_VALUE nReadsPerThread suppliers).allPaired = true →
      (reported BASE_VALUE nReadsPerThread suppliers).anyPaired = true) := by
  have hany : ((reported BASE_VALUE nReadsPerThread suppliers).anyPaired = true ↔
      ∃ read ∈ sampled nReadsPerThread suppliers,
        read.originalSAMFlags &&& SAM_MULTI_SEGMENT ≠ 0) := by
    rw [reported_eq_foldl _ _ _ hcount, reported_anyPaired_eq, List.any_eq_true]
    simp [sampled, Read.isPaired]
  have hall : ((reported BASE_VALUE nReadsPerThread suppliers).allPaired = true ↔
      ∀ read ∈ sampled nReadsPerThread suppliers,
        read.originalSAMFlags &&& SAM_MULTI_SEGMENT ≠ 0) := by
    rw [reported_eq_foldl _ _ _ hcount, reported_allPaired_eq, List.all_eq_true]
    simp [sampled, Read.isPaired]
  refine ⟨rfl, hany, hall, fun hne hallp => ?_⟩
  obtain ⟨read, hread⟩ := List.exists_mem_of_ne_nil _ hne
  exact hany.2 ⟨read, hread, hall.1 hallp read hread⟩

/-- Claim C10 on `exampleSuppliers` with the quota 2 per thread. -/
theorem reported_paired_witness :
    SAM_MULTI_SEGMENT = 0x1 ∧
    ((reported exampleBaseValue 2 exampleSuppliers).anyPaired = true ↔
      ∃ read ∈ sampled 2 exampleSuppliers, read.originalSAMFlags &&& SAM_MULTI_SEGMENT ≠ 0) ∧
    ((reported exampleBaseValue 2 exampleSuppliers).allPaired = true ↔
      ∀ read ∈ sampled 2 exampleSuppliers, read.originalSAMFlags &&& SAM_MULTI_SEGMENT ≠ 0) ∧
    (sampled 2 exampleSuppliers ≠ [] →
      (reported exampleBaseValue 2 exampleSuppliers).allPaired = true →
      (reported exampleBaseValue 2 exampleSuppliers).anyPaired = true) :=
  reported_paired exampleBaseValue 2 exampleSuppliers (by decide)

theorem sampled_single (nReadsPerThread : Int) (read : Read) :
    sampled nReadsPerThread [[read]] = [read] := by
  obtain ⟨q, hq⟩ : ∃ q : Nat, (max 1 nReadsPerThread).toNat = q + 1 :=
    ⟨(max 1 nReadsPerThread).toNat - 1, by omega⟩
  simp only [sampled, sampledBy, List.map_cons, List.map_nil, List.flatten_cons,
    List.flatten_nil, List.append_nil, hq, List.take_succ_cons, List.take_nil]

theorem reported_single (BASE_VALUE : Nat → Nat) (nReadsPerThread : Int) (read : Read) :
    reported BASE_VALUE nReadsPerThread [[read]]
      = addContext initialTotals (processRead BASE_VALUE initialContext read) := by
  simp only [reported, WorkerThreadMain, workerLoop, ite_self, List.map_cons, List.map_nil,
    List.foldl_cons, List.foldl_nil]

theorem minReadLength_single (BASE_VALUE : Nat → Nat) (nReadsPerThread : Int) (read : Read) :
    (reported BASE_VALUE nReadsPerThread [[read]]).minReadLength
      = __min (__min (read.getDataLength : Int) 10000000000) 1000000 := by
  rw [reported_single]
  simp only [addContext, processRead, initialContext, initialTotals]

/-- Claim C8 on the code: one worker whose supplier hands out a single read of 1000001 bases,
with the per-thread quota 10000000. That read is the only sampled read, its data length is
1000001, and the reported `minReadLength` is 1000000. -/
theorem reported_minReadLength_capped (BASE_VALUE : Nat → Nat) :
    sampled 10000000 [[longRead]] = [longRead] ∧
    longRead.getDataLength = 1000001 ∧
    (reported BASE_VALUE 10000000 [[longRead]]).minReadLength = 1000000 := by
  have hlen : longRead.getDataLength = 1000001 := List.length_replicate _ _
  refine ⟨sampled_single _ _, hlen, ?_⟩
  rw [minReadLength_single, hlen]
  norm_num [__min]

/-! ## The sample size -/

theorem length_sampledBy (nReadsPerThread : Int) (supplier : List Read) :
    (sampledBy nReadsPerThread supplier).length
      = min (max 1 nReadsPerThread).toNat supplier.length :=
  List.length_take _ _

/-- The reads sampled in a run are at most the per-thread quota (and at least one) for each
thread. -/
theorem length_sampled_le (nReadsPerThread : Int) (suppliers : List (List Read)) :
    (sampled nReadsPerThread suppliers).length
      ≤ suppliers.length * (max 1 nReadsPerThread).toNat := by
  induction suppliers with
  | nil => simp [sampled]
  | cons supplier suppliers ih =>
    have h1 := length_sampledBy nReadsPerThread supplier
    have h2 : (sampled nReadsPerThread (supplier :: suppliers)).length
        = (sampledBy nReadsPerThread supplier).length
          + (sampled nReadsPerThread suppliers).length := by
      simp only [sampled, List.map_cons, List.flatten_cons, List.length_append]
    rw [h2, List.length_cons, Nat.succ_mul]
    omega

/-- The reported `totalReads` is the number of sampled reads. -/
theorem reported_totalReads_eq (BASE_VALUE : Nat → Nat) (nReadsPerThread : Int)
    (suppliers : List (List Read))
    (hcount : (sampled nReadsPerThread suppliers).length < 2 ^ 63) :
    (reported BASE_VALUE nReadsPerThread suppliers).totalReads
      = (sampled nReadsPerThread suppliers).length := by
  have hcountInt : ((sampled nReadsPerThread suppliers).length : Int) < 2 ^ 63 := by
    exact_mod_cast hcount
  rw [reported_eq_foldl _ _ _ hcount, ← sum_map_one]
  exact reported_sum_field BASE_VALUE ThreadContext.totalReads (fun _ => 1)
    (fun _ _ => rfl) (fun _ _ => rfl) rfl rfl _ (fun _ _ => zero_le_one)
    (by rw [sum_map_one]; exact hcountInt)

/-- The quota computed by `main` when nothing wraps: the quotient rounded up. -/
theorem nReadsPerThreadOf_eq (nReadsToSample : Int) (nThreads : Nat) (ht : 1 ≤ nThreads)
    (hN : 1 ≤ nReadsToSample) (hint : nReadsToSample < 2 ^ 31)
    (huns : nReadsToSample + nThreads - 1 < 2 ^ 32) :
    nReadsPerThreadOf nReadsToSample nThreads
        = some ((nReadsToSample + nThreads - 1) / nThreads) ∧
      1 ≤ (nReadsToSample + nThreads - 1) / nThreads ∧
      (nThreads : Int) * ((nReadsToSample + nThreads - 1) / nThreads)
        ≤ nReadsToSample + nThreads - 1 := by
  have ht0 : nThreads ≠ 0 := by omega
  have htpos : (0 : Int) < nThreads := by exact_mod_cast ht
  have hmod : (nReadsToSample + nThreads - 1) % 2 ^ 32 = nReadsToSample + nThreads - 1 :=
    Int.emod_eq_of_lt (by omega) huns
  have hq1 : 1 ≤ (nReadsToSample + nThreads - 1) / nThreads :=
    (Int.le_ediv_iff_mul_le htpos).2 (by omega)
  have hqN : (nReadsToSample + nThreads - 1) / nThreads < nReadsToSample + 1 :=
    (Int.ediv_lt_iff_lt_mul htpos).2 (by nlinarith)
  refine ⟨?_, hq1, Int.mul_ediv_self_le (by omega)⟩
  simp only [nReadsPerThreadOf, ht0, if_false, hmod]
  rw [wrapInt32_eq_self (by omega) (by omega)]

/-- A worker whose supplier holds at least the quota samples exactly the quota. -/
theorem length_sampledBy_of_le (nReadsPerThread : Int) (supplier : List Read)
    (hq : 1 ≤ nReadsPerThread) (hfill : nReadsPerThread ≤ supplier.length) :
    ((sampledBy nReadsPerThread supplier).length : Int) = nReadsPerThread := by
  rw [length_sampledBy]
  omega

/-- When every supplier holds at least the quota, the workers sample the quota each. -/
theorem length_sampled_of_le (nReadsPerThread : Int) (hq : 1 ≤ nReadsPerThread)
    (suppliers : List (List Read))
    (hfill : ∀ supplier ∈ suppliers, nReadsPerThread ≤ (supplier.length : Int)) :
    ((sampled nReadsPerThread suppliers).length : Int)
      = (suppliers.length : Int) * nReadsPerThread := by
  induction suppliers with
  | nil => simp [sampled]
  | cons supplier suppliers ih =>
    have h1 := length_sampledBy_of_le nReadsPerThread supplier hq
      (hfill supplier (List.mem_cons_self _ _))
    have h2 := ih fun x hx => hfill x (List.mem_cons_of_mem _ hx)
    have h3 : (sampled nReadsPerThread (supplier :: suppliers)).length
        = (sampledBy nReadsPerThread supplier).length
          + (sampled nReadsPerThread suppliers).length := by
      simp only [sampled, List.map_cons, List.flatten_cons, List.length_append]
    rw [h3, List.length_cons]
    push_cast
    rw [h1, h2]
    ring

/-- The rounded-up quota times the thread count is the sample size exactly when the thread
count divides it, and more otherwise. -/
theorem quota_times_threads (nReadsToSample : Int) (nThreads : Nat) (ht : 1 ≤ nThreads) :
    ((nThreads : Int) ∣ nReadsToSample →
      (nThreads : Int) * ((nReadsToSample + nThreads - 1) / nThreads) ≤ nReadsToSample) ∧
    (¬ (nThreads : Int) ∣ nReadsToSample →
      nReadsToSample < (nThreads : Int) * ((nReadsToSample + nThreads - 1) / nThreads)) := by
  have htpos : (0 : Int) < nThreads := by exact_mod_cast ht
  have hdiv := Int.ediv_add_emod nReadsToSample nThreads
  have hr0 := Int.emod_nonneg nReadsToSample (ne_of_gt htpos)
  have hrt := Int.emod_lt_of_pos nReadsToSample htpos
  constructor
  · intro hdvd
    have hr : nReadsToSample % nThreads = 0 := Int.emod_eq_zero_of_dvd hdvd
    have hq : (nReadsToSample + nThreads - 1) / nThreads < nReadsToSample / nThreads + 1 :=
      (Int.ediv_lt_iff_lt_mul htpos).2 (by nlinarith)
    nlinarith
  · intro hndvd
    have hr : nReadsToSample % nThreads ≠ 0 := fun h => hndvd (Int.dvd_of_emod_eq_zero h)
    have hq : nReadsToSample / nThreads + 1 ≤ (nReadsToSample + nThreads - 1) / nThreads :=
      (Int.le_ediv_iff_mul_le htpos).2 (by nlinarith [lt_of_le_of_ne hr0 (Ne.symm hr)])
    nlinarith [lt_of_le_of_ne hr0 (Ne.symm hr)]

/-- Claim C12, amended. With `nThreads ≥ 1` workers, `1 ≤ nReadsToSample` and no wrap in the
`unsigned` sum, the quota is `(nReadsToSample + nThreads - 1) / nThreads`, the reported
`totalReads` is the number of reads the workers process, and that number is at most
`nThreads * nReadsPerThread`, which is at most `nReadsToSample + nThreads - 1`. It is at most
`nReadsToSample` when `nThreads` divides `nReadsToSample`; when every supplier holds at least
`nReadsPerThread` reads it is `nThreads * nReadsPerThread` exactly, and then, if `nThreads`
does not divide `nReadsToSample`, it exceeds `nReadsToSample`. -/
theorem sampled_at_most_quota_per_thread (BASE_VALUE : Nat → Nat) (nReadsToSample : Int)
    (nThreads : Nat) (suppliers : List (List Read)) (hthreads : suppliers.length = nThreads)
    (ht : 1 ≤ nThreads) (hN : 1 ≤ nReadsToSample) (hint : nReadsToSample < 2 ^ 31)
    (huns : nReadsToSample + nThreads - 1 < 2 ^ 32) :
    ∃ nReadsPerThread : Int,
      nReadsPerThreadOf nReadsToSample nThreads = some nReadsPerThread ∧
      nReadsPerThread = (nReadsToSample + nThreads - 1) / nThreads ∧
      (reported BASE_VALUE nReadsPerThread suppliers).totalReads
        = (sampled nReadsPerThread suppliers).length ∧
      ((sampled nReadsPerThread suppliers).length : Int) ≤ nThreads * nReadsPerThread ∧
      (nThreads : Int) * nReadsPerThread ≤ nReadsToSample + nThreads - 1 ∧
      ((nThreads : Int) ∣ nReadsToSample →
        ((sampled nReadsPerThread suppliers).length : Int) ≤ nReadsToSample) ∧
      ((∀ supplier ∈ suppliers, nReadsPerThread ≤ (supplier.length : Int)) →
        ((sampled nReadsPerThread suppliers).length : Int) = nThreads * nReadsPerThread) ∧
      (¬ (nThreads : Int) ∣ nReadsToSample →
        (∀ supplier ∈ suppliers, nReadsPerThread ≤ (supplier.length : Int)) →
        nReadsToSample < ((sampled nReadsPerThread suppliers).length : Int)) := by
  obtain ⟨hq, hq1, hmul⟩ := nReadsPerThreadOf_eq nReadsToSample nThreads ht hN hint huns
  obtain ⟨hdvd, hndvd⟩ := quota_times_threads nReadsToSample nThreads ht
  have hle := length_sampled_le ((nReadsToSample + nThreads - 1) / nThreads) suppliers
  have hmax : ((max 1 ((nReadsToSample + nThreads - 1) / nThreads)).toNat : Int)
      = (nReadsToSample + nThreads - 1) / nThreads := by omega
  have hleInt : ((sampled ((nReadsToSample + nThreads - 1) / nThreads) suppliers).length : Int)
      ≤ nThreads * ((nReadsToSample + nThreads - 1) / nThreads) := by
    have h3 : ((sampled ((nReadsToSample + nThreads - 1) / nThreads) suppliers).length : Int)
        ≤ (suppliers.length : Int)
          * ((max 1 ((nReadsToSample + nThreads - 1) / nThreads)).toNat : Int) := by
      exact_mod_cast hle
    rw [hmax, hthreads] at h3
    exact h3
  have hfill : (∀ supplier ∈ suppliers,
      (nReadsToSample + nThreads - 1) / nThreads ≤ (supplier.length : Int)) →
      ((sampled ((nReadsToSample + nThreads - 1) / nThreads) suppliers).length : Int)
        = nThreads * ((nReadsToSample + nThreads - 1) / nThreads) := by
    intro h
    rw [length_sampled_of_le _ hq1 suppliers h, hthreads]
  refine ⟨_, hq, rfl, reported_totalReads_eq _ _ _ ?_, hleInt, hmul,
    fun h => le_trans hleInt (hdvd h), hfill, fun h1 h2 => ?_⟩
  · have : ((sampled ((nReadsToSample + nThreads - 1) / nThreads) suppliers).length : Int)
        < 2 ^ 63 := by omega
    exact_mod_cast this
  · rw [hfill h2]
    exact hndvd h1

theorem length_manyReads : manyReads.length = 3333334 := List.length_replicate _ _

theorem length_sampledBy_manyReads : (sampledBy 3333334 manyReads).length = 3333334 := by
  have hq : (max 1 (3333334 : Int)).toNat = 3333334 := by omega
  rw [length_sampledBy, length_manyReads, hq]
  exact Nat.min_self _

theorem length_sampled_three (nReadsPerThread : Int) (a b c : List Read) :
    (sampled nReadsPerThread [a, b, c]).length
      = (sampledBy nReadsPerThread a).length
        + ((sampledBy nReadsPerThread b).length + (sampledBy nReadsPerThread c).length) := by
  simp only [sampled, List.map_cons, List.map_nil, List.flatten_cons, List.flatten_nil,
    List.length_append, List.length_nil, Nat.add_zero]

theorem length_sampled_manyReads :
    (sampled 3333334 [manyReads, manyReads, manyReads]).length = 10000002 := by
  rw [length_sampled_three, length_sampledBy_manyReads]

theorem length_sampledBy_longer :
    (sampledBy 3333334 (⟨[71, 84], 1⟩ :: manyReads)).length = 3333334 := by
  have hq : (max 1 (3333334 : Int)).toNat = 3333334 := by omega
  rw [length_sampledBy, List.length_cons, length_manyReads, hq]
  exact Nat.min_eq_left (by omega)

theorem length_sampled_quotaSuppliers : (sampled 3333334 quotaSuppliers).length = 10000002 := by
  rw [quotaSuppliers, length_sampled_three, length_sampledBy_manyReads, length_sampledBy_longer]

theorem forall_mem_three {β : Type} (P : β → Prop) (a b c : β) (ha : P a) (hb : P b)
    (hc : P c) : ∀ x ∈ [a, b, c], P x := by
  intro x hx
  simp only [List.mem_cons, List.mem_singleton, List.not_mem_nil, or_false] at hx
  rcases hx with rfl | rfl | rfl
  · exact ha
  · exact hb
  · exact hc

theorem quotaSuppliers_filled :
    ∀ supplier ∈ quotaSuppliers, (3333334 : Int) ≤ (supplier.length : Int) := by
  have h1 : (3333334 : Int) ≤ (manyReads.length : Int) := by
    rw [length_manyReads]
    norm_num
  have h2 : (3333334 : Int) ≤ (((⟨[71, 84], 1⟩ : Read) :: manyReads).length : Int) := by
    rw [List.length_cons, length_manyReads]
    norm_num
  rw [quotaSuppliers]
  exact forall_mem_three _ _ _ _ h1 h1 h2

/-- Claim C12, amended, for the sample size 10000000 of `main` and the three workers of
`quotaSuppliers`: every supplier holds at least the quota 3333334, the third one read more,
3 does not divide 10000000, and 10000002 reads are sampled. -/
theorem sampled_at_most_quota_per_thread_witness :
    (∃ nReadsPerThread : Int,
      nReadsPerThreadOf 10000000 3 = some nReadsPerThread ∧
      nReadsPerThread = (10000000 + (3 : Nat) - 1) / (3 : Nat) ∧
      (reported exampleBaseValue nReadsPerThread quotaSuppliers).totalReads
        = (sampled nReadsPerThread quotaSuppliers).length ∧
      ((sampled nReadsPerThread quotaSuppliers).length : Int) ≤ (3 : Nat) * nReadsPerThread ∧
      ((3 : Nat) : Int) * nReadsPerThread ≤ 10000000 + (3 : Nat) - 1 ∧
      (((3 : Nat) : Int) ∣ 10000000 →
        ((sampled nReadsPerThread quotaSuppliers).length : Int) ≤ 10000000) ∧
      ((∀ supplier ∈ quotaSuppliers, nReadsPerThread ≤ (supplier.length : Int)) →
        ((sampled nReadsPerThread quotaSuppliers).length : Int)
          = (3 : Nat) * nReadsPerThread) ∧
      (¬ ((3 : Nat) : Int) ∣ 10000000 →
        (∀ supplier ∈ quotaSuppliers, nReadsPerThread ≤ (supplier.length : Int)) →
        10000000 < ((sampled nReadsPerThread quotaSuppliers).length : Int))) ∧
    (∀ supplier ∈ quotaSuppliers, (3333334 : Int) ≤ (supplier.length : Int)) ∧
    ¬ (((3 : Nat) : Int) ∣ (10000000 : Int)) ∧
    (sampled 3333334 quotaSuppliers).length = 10000002 :=
  ⟨sampled_at_most_quota_per_thread exampleBaseValue 10000000 3 quotaSuppliers rfl
      (by decide) (by norm_num) (by norm_num) (by norm_num),
    quotaSuppliers_filled, by decide, length_sampled_quotaSuppliers⟩

/-- Claim C12, as stated, fails: with three workers `main` computes the quota 3333334 from
the sample size 10000000, and when each supplier holds 3333334 reads the workers process
10000002 reads, more than 10000000. -/
theorem sampled_exceeds_nReadsToSample :
    mainNReadsToSample ["SummarizeReads", "index", "id", "in.sam", "out.txt"]
      = some 10000000 ∧
    nReadsPerThreadOf 10000000 3 = some 3333334 ∧
    (sampled 3333334 [manyReads, manyReads, manyReads]).length = 10000002 ∧
    (reported exampleBaseValue 3333334 [manyReads, manyReads, manyReads]).totalReads
      = 10000002 ∧
    ¬ ((reported exampleBaseValue 3333334 [manyReads, manyReads, manyReads]).totalReads
      ≤ 10000000) := by
  have htotal : (reported exampleBaseValue 3333334 [manyReads, manyReads, manyReads]).totalReads
      = 10000002 := by
    rw [reported_totalReads_eq _ _ _ (by rw [length_sampled_manyReads]; norm_num),
      length_sampled_manyReads]
    norm_num
  refine ⟨by decide, by decide, length_sampled_manyReads, htotal, ?_⟩
  rw [htotal]
  norm_num

/-- Claim C11 on the code: a run with the fifth user argument `1000` samples with
`nReadsToSample = 10000000` and, on two processors, with the quota 5000000, exactly as a run
without the argument; whatever the sixth element of `argv` is, the sample size is 10000000
and the quota does not depend on it. -/
theorem sample_size_ignores_argument :
    mainNReadsToSample ["SummarizeReads", "index", "id", "in.sam", "out.txt", "1000"]
      = some 10000000 ∧
    mainNReadsPerThread ["SummarizeReads", "index", "id", "in.sam", "out.txt", "1000"] 2
      = some 5000000 ∧
    mainNReadsPerThread ["SummarizeReads", "index", "id", "in.sam", "out.txt"] 2
      = some 5000000 ∧
    nReadsPerThreadOf 1000 2 = some 500 ∧
    (∀ (program genomeIndex analysisId inputFile outputFile sample : String),
      mainNReadsToSample [program, genomeIndex, analysisId, inputFile, outputFile, sample]
        = some 10000000) ∧
    (∀ (program genomeIndex analysisId inputFile outputFile sample other : String)
        (nThreads : Nat),
      mainNReadsPerThread [program, genomeIndex, analysisId, inputFile, outputFile, sample]
          nThreads
        = mainNReadsPerThread [program, genomeIndex, analysisId, inputFile, outputFile, other]
            nThreads) := by
  refine ⟨by decide, by decide, by decide, by decide, fun _ _ _ _ _ _ => rfl,
    fun _ _ _ _ _ _ _ _ => rfl⟩

end SummarizeReads
